import Mathlib

/-!
Verification of the Website-Extractor extraction core.

This file gives a shallow embedding, in Lean 4, of the extraction and
normalization engine (`validateUrl`, the link/image/email/phone/color
extraction passes of `extractWebsiteData`, and `convertToMarkdown` of
`extractContent`) and proves or refutes the specified properties.

Modelling conventions:
* JS strings are modelled as Lean `String`/`List Char`, with the ASCII
  fragment of the JS semantics (`trim`, `toLowerCase`, `startsWith`,
  `split`, `includes`, lexicographic `sort`) reimplemented explicitly so
  that every definition is executable and kernel-reducible.
* The WHATWG URL parser (`new URL`) is an external collaborator of the
  core; `parseUrl` below models its behaviour on absolute `http`/`https`
  URLs: scheme, authority (userinfo stripped at the last `@`, optional
  `[...]` host, numeric port with the scheme default dropped), host
  lower-casing and a first path/query character cut. IPv4 canonicalization
  and punycode are not modelled; no input used below needs them.
* The document-query facility (cheerio/puppeteer) is an external
  collaborator: documents are modelled as the lists of attribute/text
  values that the relevant extraction pass reads from them, in document
  order, or as an explicit element tree where the pass walks the tree.
* The phone-number capability (libphonenumber-js) is an external
  collaborator and is injected as function arguments (`find`, `parse`).
-/

namespace WebExtract

/-! ## ASCII string primitives -/

/-- ASCII whitespace (model of the JS `\s` class and of `String.trim`). -/
def isWsCh (c : Char) : Bool :=
  c = ' ' || c = '\t' || c = '\n' || c = '\r' || c = '\x0b' || c = '\x0c'

/-- Model of `String.prototype.trim` on the character list. -/
def trimCh (l : List Char) : List Char :=
  ((l.dropWhile isWsCh).reverse.dropWhile isWsCh).reverse

/-- Model of `String.prototype.trim`. -/
def jsTrim (s : String) : String := ⟨trimCh s.data⟩

/-- ASCII lower-casing of one character (model of `toLowerCase`). -/
def lowerCh (c : Char) : Char :=
  if 65 ≤ c.toNat && c.toNat ≤ 90 then Char.ofNat (c.toNat + 32) else c

/-- Model of `String.prototype.toLowerCase` (ASCII fragment). -/
def asciiLower (s : String) : String := ⟨s.data.map lowerCh⟩

/-- Does `p` occur as a leading segment of `l`? -/
def hasPrefCh : List Char → List Char → Bool
  | [], _ => true
  | _ :: _, [] => false
  | a :: p, b :: l => a = b && hasPrefCh p l

/-- Model of `String.prototype.startsWith`. -/
def hasPref (s p : String) : Bool := hasPrefCh p.data s.data

/-- Model of `String.prototype.endsWith`. -/
def hasSuff (s p : String) : Bool := hasPrefCh p.data.reverse s.data.reverse

/-- Does `pat` occur as a contiguous segment of `l`? -/
def containsSubCh (pat : List Char) : List Char → Bool
  | [] => pat.isEmpty
  | b :: t => hasPrefCh pat (b :: t) || containsSubCh pat t

/-- Model of `String.prototype.includes`. -/
def containsSub (s pat : String) : Bool := containsSubCh pat.data s.data

/-- Decimal digit test (JS `\d`). -/
def isDigitCh (c : Char) : Bool := 48 ≤ c.toNat && c.toNat ≤ 57

/-- Hexadecimal digit test (JS `[0-9a-fA-F]`). -/
def isHexCh (c : Char) : Bool :=
  isDigitCh c || (97 ≤ c.toNat && c.toNat ≤ 102) || (65 ≤ c.toNat && c.toNat ≤ 70)

/-- Model of `String.prototype.split` with a one-character separator. -/
def splitChAll (sep : Char) : List Char → List (List Char)
  | [] => [[]]
  | c :: t =>
    if c = sep then [] :: splitChAll sep t
    else
      match splitChAll sep t with
      | [] => [[c]]
      | g :: gs => (c :: g) :: gs

/-- The segment of `l` before the first occurrence of `sep` (JS `split(sep)[0]`). -/
def takeBeforeCh (sep : Char) (l : List Char) : List Char := l.takeWhile (· ≠ sep)

/-- The suffix of `l` after the last occurrence of `sep` (whole list if absent). -/
def afterLastCh (sep : Char) (l : List Char) : List Char :=
  (l.reverse.takeWhile (· ≠ sep)).reverse

/-- Numeric value of a decimal digit list (model of `parseInt` on digit runs). -/
def natOfDigits (l : List Char) : Nat :=
  l.foldl (fun n c => n * 10 + (c.toNat - 48)) 0

/-- Decimal rendering of a natural number. -/
def natToDecStr (n : Nat) : String := ⟨Nat.toDigits 10 n⟩

/-- Lowercase base-16 rendering (model of `Number.prototype.toString(16)`). -/
def natToHexStr (n : Nat) : List Char := Nat.toDigits 16 n

/-- Model of `padStart(2, '0')`. -/
def pad2 (l : List Char) : List Char :=
  if l.length < 2 then List.replicate (2 - l.length) '0' ++ l else l

/-- Lexicographic comparison on code points (model of the default JS
string comparison used by `Array.prototype.sort`). -/
def lexLe : List Char → List Char → Bool
  | [], _ => true
  | _ :: _, [] => false
  | a :: s, b :: t =>
    if a.toNat < b.toNat then true
    else if b.toNat < a.toNat then false
    else lexLe s t

/-- String order used to model the JS default sort. -/
def strLe (s t : String) : Prop := lexLe s.data t.data = true

instance : DecidableRel strLe := fun s t => by unfold strLe; infer_instance

theorem lexLe_total : ∀ s t, lexLe s t = true ∨ lexLe t s = true := by
  intro s
  induction s with
  | nil => intro t; left; rfl
  | cons a s ih =>
    intro t
    cases t with
    | nil => right; rfl
    | cons b t =>
      by_cases h1 : a.toNat < b.toNat
      · left; simp [lexLe, h1]
      · by_cases h2 : b.toNat < a.toNat
        · right; simp [lexLe, h2]
        · rcases ih t with h | h
          · left; simp [lexLe, h1, h2, h]
          · right; simp [lexLe, h1, h2, h]

theorem lexLe_trans :
    ∀ s t u, lexLe s t = true → lexLe t u = true → lexLe s u = true := by
  intro s
  induction s with
  | nil => intro t u _ _; rfl
  | cons a s ih =>
    intro t u h1 h2
    cases t with
    | nil => simp [lexLe] at h1
    | cons b t =>
      cases u with
      | nil => simp [lexLe] at h2
      | cons c u =>
        simp only [lexLe] at h1 h2 ⊢
        split at h1
        · next hab =>
          split at h2
          · next hbc => simp [Nat.lt_trans hab hbc]
          · next hbc =>
            split at h2
            · next => simp at h2
            · next hcb =>
              have : c.toNat = b.toNat := by omega
              simp [this, hab]
        · next hab =>
          split at h1
          · next => simp at h1
          · next hba =>
            have hab' : a.toNat = b.toNat := by omega
            split at h2
            · next hbc => simp [hab' ▸ hbc]
            · next hbc =>
              split at h2
              · next => simp at h2
              · next hcb =>
                by_cases h : a.toNat < c.toNat
                · simp [h]
                · have hca : ¬ c.toNat < a.toNat := by omega
                  simp [h, hca, ih t u h1 h2]

instance : IsTotal String strLe := ⟨fun s t => lexLe_total s.data t.data⟩

instance : IsTrans String strLe := ⟨fun s t u => lexLe_trans s.data t.data u.data⟩

/-! ## URL model

`parseUrl` models the external WHATWG `new URL` constructor on absolute
`http(s)` URLs (the only shape the core ever hands it after scheme
normalization). -/

structure UrlParts where
  scheme : String
  host : String
  port : Option Nat
  path : String
deriving DecidableEq, Repr

/-- Default port of an `http(s)` scheme (dropped by the WHATWG parser). -/
def defaultPort (scheme : String) : Nat := if scheme = "https" then 443 else 80

/-- Characters the WHATWG host parser rejects outright. -/
def hostOkCh (c : Char) : Bool :=
  !(c = ' ' || c = '#' || c = '/' || c = ':' || c = '?' || c = '@' ||
    c = '[' || c = ']' || c = '\\' || c = '<' || c = '>' || c = '^' || c = '|')

/-- Parse the authority component: strip userinfo at the last `@`, then
split host and numeric port (empty port allowed and dropped). -/
def parseAuth (auth : List Char) : Option (List Char × Option Nat) :=
  let hp := afterLastCh '@' auth
  match hp with
  | '[' :: t =>
    let inner := t.takeWhile (· ≠ ']')
    match t.dropWhile (· ≠ ']') with
    | ']' :: r =>
      let host := '[' :: inner ++ [']']
      match r with
      | [] => some (host, none)
      | ':' :: ps =>
        if ps = [] then some (host, none)
        else if ps.all isDigitCh && natOfDigits ps ≤ 65535 then
          some (host, some (natOfDigits ps))
        else none
      | _ => none
    | _ => none
  | _ =>
    let h := hp.takeWhile (· ≠ ':')
    if h = [] || !h.all hostOkCh then none
    else
      match hp.dropWhile (· ≠ ':') with
      | [] => some (h, none)
      | _ :: ps =>
        if ps = [] then some (h, none)
        else if ps.all isDigitCh && natOfDigits ps ≤ 65535 then
          some (h, some (natOfDigits ps))
        else none

/-- Model of `new URL` on absolute `http(s)` URLs. -/
def parseUrl (s : String) : Option UrlParts :=
  let l := s.data
  if hasPrefCh "http://".data l then parseUrlTail "http" (l.drop 7)
  else if hasPrefCh "https://".data l then parseUrlTail "https" (l.drop 8)
  else none
where
  parseUrlTail (scheme : String) (rest : List Char) : Option UrlParts :=
    let auth := rest.takeWhile (fun c => c ≠ '/' && c ≠ '?' && c ≠ '#')
    (parseAuth auth).map fun hp =>
      ⟨scheme, ⟨hp.1.map lowerCh⟩, hp.2.filter (fun n => n ≠ defaultPort scheme),
        ⟨rest.drop auth.length⟩⟩

/-- The origin (scheme + host + explicit port) of a parsed URL. -/
def originOf (u : UrlParts) : String :=
  u.scheme ++ "://" ++ u.host ++
    (match u.port with
     | some n => ":" ++ natToDecStr n
     | none => "")

/-- Origin of an absolute URL string, when it parses. -/
def originOfUrl (s : String) : Option String := (parseUrl s).map originOf

/-! ## validateUrl (URL Resolver `normalize`) -/

inductive UrlError
  | invalidUrl
  | forbiddenTarget
  | unsupportedScheme
deriving DecidableEq, Repr

/-- The scheme-defaulting step of `validateUrl`: add `https://` when the
(already trimmed) input starts with neither `http://` nor `https://`. -/
def ensureScheme (s : String) : String :=
  if hasPref s "http://" || hasPref s "https://" then s else "https://" ++ s

/-- Model of the regex `/^(\d{1,3}\.){3}\d{1,3}$/`. -/
def ipv4Like (h : List Char) : Bool :=
  let gs := splitChAll '.' h
  gs.length = 4 && gs.all (fun g => g ≠ [] && g.length ≤ 3 && g.all isDigitCh)

/-- Hex digit or colon (the character class of the bare-IPv6 test). -/
def isHexColon (c : Char) : Bool := isHexCh c || c = ':'

/-- Model of the regex `/^\[?([0-9a-fA-F:]+)\]?$/`. -/
def ipv6Like (h : List Char) : Bool :=
  let h1 := if h.head? = some '[' then h.tail else h
  let h2 := if h1.getLast? = some ']' then h1.dropLast else h1
  h2 ≠ [] && h2.all isHexColon

/-- Model of the regex `/^172\.(1[6-9]|2[0-9]|3[01])\./`. -/
def pat172 (h : String) : Bool :=
  match h.data with
  | '1' :: '7' :: '2' :: '.' :: a :: b :: '.' :: _ =>
    (a = '1' && (54 ≤ b.toNat && b.toNat ≤ 57)) ||
    (a = '2' && isDigitCh b) ||
    (a = '3' && (b = '0' || b = '1'))
  | _ => false

/-- The `privateIpPatterns` list of `validateUrl`. -/
def privateHostPatterns (h : String) : Bool :=
  h = "localhost" || hasPref h "127." || hasPref h "10." || pat172 h ||
  hasPref h "192.168." || h = "0.0.0.0" || h = "::1" ||
  hasPref h "fc00:" || hasPref h "fe80:"

/-- Model of `validateUrl` (spec name: `normalize`): trim, default the
scheme, parse, reject private/IP-literal hostnames, reject non-http(s)
protocols, and return the normalized URL string. -/
def validateUrl (url : String) : Except UrlError String :=
  match parseUrl (ensureScheme (jsTrim url)) with
  | none => .error .invalidUrl
  | some parsed =>
    if (ipv4Like (asciiLower parsed.host).data || ipv6Like (asciiLower parsed.host).data)
        || privateHostPatterns (asciiLower parsed.host) then
      .error .forbiddenTarget
    else if parsed.scheme ≠ "http" && parsed.scheme ≠ "https" then
      .error .unsupportedScheme
    else .ok (ensureScheme (jsTrim url))

/-- Bool view of "the result is an UnsupportedScheme failure". -/
def isUnsupportedErr : Except UrlError String → Bool
  | .error .unsupportedScheme => true
  | _ => false

instance : DecidableEq (Except UrlError String) := fun a b =>
  match a, b with
  | .ok x, .ok y => decidable_of_iff (x = y) (by simp)
  | .error x, .error y => decidable_of_iff (x = y) (by simp)
  | .ok _, .error _ => isFalse (by simp)
  | .error _, .ok _ => isFalse (by simp)

/-- Every URL produced by `parseUrl` has scheme `http` or `https`. -/
theorem parseUrlTail_scheme (sc : String) (rest : List Char) (u : UrlParts)
    (h : parseUrl.parseUrlTail sc rest = some u) : u.scheme = sc := by
  unfold parseUrl.parseUrlTail at h
  simp only [Option.map_eq_some'] at h
  obtain ⟨a, -, rfl⟩ := h
  rfl

theorem parseUrl_scheme (s : String) (u : UrlParts) (h : parseUrl s = some u) :
    u.scheme = "http" ∨ u.scheme = "https" := by
  unfold parseUrl at h
  simp only at h
  split at h
  · exact Or.inl (parseUrlTail_scheme _ _ _ h)
  · split at h
    · exact Or.inr (parseUrlTail_scheme _ _ _ h)
    · exact absurd h (by simp)

/-- With the scheme-defaulting hypotheses, `ensureScheme` prepends `https://`. -/
theorem ensureScheme_adds (s : String)
    (h1 : hasPref s "http://" = false) (h2 : hasPref s "https://" = false) :
    ensureScheme s = "https://" ++ s := by
  simp [ensureScheme, h1, h2]

/-- An all-hex-or-colon nonempty hostname matches the bare-IPv6 regex. -/
theorem ipv6Like_of_allHexColon (l : List Char) (hne : l.isEmpty = false)
    (hall : l.all isHexColon = true) : ipv6Like l = true := by
  have hhc : ∀ c ∈ l, isHexColon c = true := List.all_eq_true.mp hall
  have hhead : ¬ l.head? = some '[' := by
    intro hc
    have hm : '[' ∈ l := List.mem_of_mem_head? (by rw [hc]; rfl)
    exact absurd (hhc _ hm) (by decide)
  have hlast : ¬ l.getLast? = some ']' := by
    intro hc
    have hm : ']' ∈ l := List.mem_of_mem_getLast? (by rw [hc]; rfl)
    exact absurd (hhc _ hm) (by decide)
  unfold ipv6Like
  simp only [if_neg hhead, if_neg hlast, Bool.and_eq_true, hall, and_true]
  cases l with
  | nil => simp at hne
  | cons c t => simp

/-- Unfolded success shape of `validateUrl`. -/
theorem validateUrl_ok_shape (s r : String) (h : validateUrl s = .ok r) :
    r = ensureScheme (jsTrim s) := by
  unfold validateUrl at h
  split at h
  · exact absurd h (by simp)
  · split at h
    · exact absurd h (by simp)
    · split at h
      · exact absurd h (by simp)
      · cases h; rfl

/-- When a private-pattern hostname parses, `validateUrl` rejects it. -/
theorem validateUrl_forbidden_of_private (s : String) (u : UrlParts)
    (hp : parseUrl (ensureScheme (jsTrim s)) = some u)
    (hpriv : privateHostPatterns (asciiLower u.host) = true) :
    validateUrl s = .error .forbiddenTarget := by
  unfold validateUrl
  rw [hp]
  simp [hpriv]

/-- C1 (amended): `normalize` trims the input and adds the `https://` prefix
whenever the trimmed input starts with neither `http://` nor `https://`
(`normalize("example.com") = https://example.com`), and it fails with the
ForbiddenTarget error whenever the parsed hostname matches one of the
loopback/link-local/private patterns (`normalize("http://127.0.0.1")`
fails), before any network fetch can occur. -/
theorem c1_normalize :
    validateUrl "example.com" = .ok "https://example.com" ∧
    (∀ s r, validateUrl s = .ok r →
      hasPref (jsTrim s) "http://" = false → hasPref (jsTrim s) "https://" = false →
      r = "https://" ++ jsTrim s) ∧
    (∀ s u, parseUrl (ensureScheme (jsTrim s)) = some u →
      privateHostPatterns (asciiLower u.host) = true →
      validateUrl s = .error .forbiddenTarget) ∧
    validateUrl "http://127.0.0.1" = .error .forbiddenTarget := by
  refine ⟨by decide, ?_, ?_, by decide⟩
  · intro s r hok h1 h2
    rw [validateUrl_ok_shape s r hok, ensureScheme_adds _ h1 h2]
  · exact validateUrl_forbidden_of_private

/-- Witness for C1: the universally quantified parts applied at concrete
inputs (`192.168.1.1` is rejected; `example.com` receives the prefix). -/
theorem c1_normalize_witness :
    validateUrl "http://192.168.1.1" = .error .forbiddenTarget ∧
    "https://example.com" = "https://" ++ jsTrim "example.com" :=
  ⟨c1_normalize.2.2.1 "http://192.168.1.1" ⟨"http", "192.168.1.1", none, ""⟩
      (by decide) (by decide),
   c1_normalize.2.1 "example.com" "https://example.com" c1_normalize.1
      (by decide) (by decide)⟩

/-- Counterexample to C1 as stated: the input `" http://example.com"` (one
leading space) does not start with `http://` or `https://`, yet `normalize`
succeeds without adding the `https://` prefix, because the code trims the
input before the scheme check. -/
theorem c1_normalize_cex :
    hasPref " http://example.com" "http://" = false ∧
    hasPref " http://example.com" "https://" = false ∧
    validateUrl " http://example.com" = .ok "http://example.com" ∧
    hasPref "http://example.com" "https://" = false := by decide

/-- C3 evidence (code bug): `normalize("ftp://example.com")` does not fail
with UnsupportedScheme; the `https://` prefix is added first, so the input
is accepted as an https URL with hostname `ftp`, and in fact no input at
all can reach the UnsupportedScheme branch. -/
theorem c3_scheme_unreachable :
    validateUrl "ftp://example.com" = .ok "https://ftp://example.com" ∧
    ∀ s, isUnsupportedErr (validateUrl s) = false := by
  refine ⟨by decide, ?_⟩
  intro s
  unfold validateUrl
  cases hp : parseUrl (ensureScheme (jsTrim s)) with
  | none => rfl
  | some u =>
    simp only
    split
    · rfl
    · rcases parseUrl_scheme _ _ hp with h | h <;> simp [h, isUnsupportedErr]

/-- Hostname made solely of hexadecimal digits and/or colons. -/
def allHexColonHost (h : String) : Bool := !h.data.isEmpty && h.data.all isHexColon

/-- C10: `normalize` rejects with the private/internal-address error every
URL whose hostname consists solely of hexadecimal digits and/or colons,
even when it is not an IP literal: `normalize("cafe")` and
`normalize("https://beef")` fail, because the bare-IP test classifies any
all-hex hostname as an IPv6 literal. -/
theorem c10_hex_hostnames :
    validateUrl "cafe" = .error .forbiddenTarget ∧
    validateUrl "https://beef" = .error .forbiddenTarget ∧
    (∀ s u, parseUrl (ensureScheme (jsTrim s)) = some u →
      allHexColonHost (asciiLower u.host) = true →
      validateUrl s = .error .forbiddenTarget) := by
  refine ⟨by decide, by decide, ?_⟩
  intro s u hp hhex
  unfold validateUrl
  rw [hp]
  simp only [allHexColonHost, Bool.and_eq_true, Bool.not_eq_true'] at hhex
  have h6 : ipv6Like (asciiLower u.host).data = true :=
    ipv6Like_of_allHexColon _ hhex.1 hhex.2
  simp [h6]

/-- Witness for C10: the general all-hex-hostname rejection applied to the
concrete input `https://dead`. -/
theorem c10_hex_hostnames_witness :
    validateUrl "https://dead" = .error .forbiddenTarget :=
  c10_hex_hostnames.2.2 "https://dead" ⟨"https", "dead", none, ""⟩
    (by decide) (by decide)

/-! ## Relative URL resolution (link/image/video branches)

The extractor resolves each discovered reference with the same four-way
branch: absolute `http(s)` passes through, `//...` gets the base protocol
prepended, `/...` gets the base origin prepended, and anything else goes
through `new URL(reference, normalizedUrl)`. `resolveRel` models that
last constructor call for a base that parsed (guaranteed, since the base
is the validated URL); scheme-bearing references pass through and
path-relative references are merged against the base directory.
Dot-segment and query splitting of the WHATWG parser are not modelled;
no claim below depends on them. The constructor's failure path (the
`catch` that skips the anchor) cannot fire on these shapes, so the model
is total. -/

/-- ASCII letter test. -/
def isAlphaCh (c : Char) : Bool :=
  (97 ≤ c.toNat && c.toNat ≤ 122) || (65 ≤ c.toNat && c.toNat ≤ 90)

/-- Tail of a scheme: `(alnum|+|-|.)*` followed by `:`. -/
def schemeTail : List Char → Bool
  | [] => false
  | ':' :: _ => true
  | c :: t => (isAlphaCh c || isDigitCh c || c = '+' || c = '-' || c = '.') && schemeTail t

/-- Does the reference start with a URL scheme? -/
def hasScheme (s : String) : Bool :=
  match s.data with
  | c :: t => isAlphaCh c && schemeTail t
  | [] => false

/-- Serialization of a parsed URL (model of `URL.href`). -/
def hrefOf (u : UrlParts) : String :=
  originOf u ++ (if u.path = "" then "/" else u.path)

/-- Model of `new URL(reference, base).href` with a parsed base. -/
def resolveRel (base : UrlParts) (reference : String) : String :=
  if hasScheme reference then reference
  else if reference = "" then hrefOf base
  else
    let d := (base.path.data.reverse.dropWhile (· ≠ '/')).reverse
    originOf base ++ (if d = [] then "/" else ⟨d⟩) ++ reference

/-! ## Link extraction (`extractWebsiteData`, anchors pass)

An anchor is modelled by the four values the pass reads from the element:
`href`, the trimmed-able element text, `aria-label` and `title` (an absent
attribute reads as the empty string, which the JS `||` chain treats the
same as an empty value). -/

structure Anchor where
  href : String
  text : String
  ariaLabel : String
  title : String
deriving DecidableEq, Repr

structure LinkEntry where
  text : String
  href : String
  external : Bool
deriving DecidableEq, Repr

/-- The skip condition of the anchor loop: empty, whitespace-only,
`javascript:`, `mailto:` or `tel:` targets. -/
def skipHref (href : String) : Bool :=
  href = "" || jsTrim href = "" || hasPref href "javascript:" ||
  hasPref href "mailto:" || hasPref href "tel:"

/-- The four-way resolution branch of the anchor loop. -/
def resolveHref (base : UrlParts) (href : String) : String :=
  if hasPref href "http://" || hasPref href "https://" then href
  else if hasPref href "//" then (base.scheme ++ ":") ++ href
  else if hasPref href "/" then originOf base ++ href
  else resolveRel base href

/-- Display text of an anchor: element text, `aria-label`, `title`, then
the raw href, with a final fallback to the resolved URL. -/
def anchorText (a : Anchor) (fullUrl : String) : String :=
  let t :=
    if jsTrim a.text ≠ "" then jsTrim a.text
    else if a.ariaLabel ≠ "" then a.ariaLabel
    else if a.title ≠ "" then a.title
    else a.href
  if t = "" then fullUrl else t

/-- The entry one anchor contributes before deduplication, if any. -/
def anchorEntry (base : UrlParts) (a : Anchor) : Option LinkEntry :=
  if skipHref a.href then none
  else
    if resolveHref base a.href = "" then none
    else some ⟨anchorText a (resolveHref base a.href), resolveHref base a.href,
               !hasPref (resolveHref base a.href) (originOf base)⟩

/-- One step of the anchor loop over the state (dedup set, output list). -/
def linkStep (base : UrlParts) (st : List String × List LinkEntry) (a : Anchor) :
    List String × List LinkEntry :=
  if skipHref a.href then st
  else
    if resolveHref base a.href = "" ∨ resolveHref base a.href ∈ st.1 then st
    else (st.1 ++ [resolveHref base a.href],
          st.2 ++ [⟨anchorText a (resolveHref base a.href), resolveHref base a.href,
                    !hasPref (resolveHref base a.href) (originOf base)⟩])

/-- The anchor loop. -/
def linksLoop (base : UrlParts) (st : List String × List LinkEntry) :
    List Anchor → List String × List LinkEntry
  | [] => st
  | a :: t => linksLoop base (linkStep base st a) t

/-- The link extraction of `extractWebsiteData`: a cheerio pass followed by
an identically-structured puppeteer pass over the rendered DOM, sharing one
dedup set and output list. -/
def extractLinks (base : UrlParts) (passA passB : List Anchor) : List LinkEntry :=
  (linksLoop base (linksLoop base ([], []) passA) passB).2

/-- Both passes read the same rendered document. -/
def extractLinksDoc (base : UrlParts) (anchors : List Anchor) : List LinkEntry :=
  extractLinks base anchors anchors

theorem linkStep_eq (base : UrlParts) (st : List String × List LinkEntry) (a : Anchor) :
    linkStep base st a =
      match anchorEntry base a with
      | none => st
      | some e => if e.href ∈ st.1 then st else (st.1 ++ [e.href], st.2 ++ [e]) := by
  unfold linkStep anchorEntry
  by_cases h1 : skipHref a.href
  · simp [h1]
  · by_cases h2 : resolveHref base a.href = ""
    · simp [h1, h2]
    · by_cases h3 : resolveHref base a.href ∈ st.1
      · simp [h1, h2, h3]
      · simp [h1, h2, h3]

theorem linksLoop_append (base : UrlParts) (l₁ l₂ : List Anchor) :
    ∀ st, linksLoop base st (l₁ ++ l₂) = linksLoop base (linksLoop base st l₁) l₂ := by
  induction l₁ with
  | nil => intro st; rfl
  | cons a t ih =>
    intro st
    show linksLoop base (linkStep base st a) (t ++ l₂) = _
    exact ih (linkStep base st a)

theorem linksLoop_inv (base : UrlParts) :
    ∀ (l : List Anchor) (st : List String × List LinkEntry),
      st.1 = st.2.map (·.href) →
      (linksLoop base st l).1 = (linksLoop base st l).2.map (·.href) := by
  intro l
  induction l with
  | nil => intro st h; exact h
  | cons a t ih =>
    intro st h
    simp only [linksLoop]
    apply ih
    rw [linkStep_eq]
    cases he : anchorEntry base a with
    | none => exact h
    | some e =>
      simp only
      split
      · exact h
      · simp [h]

theorem linksLoop_seen_nodup (base : UrlParts) :
    ∀ (l : List Anchor) (st : List String × List LinkEntry),
      st.1.Nodup → (linksLoop base st l).1.Nodup := by
  intro l
  induction l with
  | nil => intro st h; exact h
  | cons a t ih =>
    intro st h
    simp only [linksLoop]
    apply ih
    rw [linkStep_eq]
    cases he : anchorEntry base a with
    | none => exact h
    | some e =>
      simp only
      split
      · exact h
      · next hmem => simp [List.nodup_append, h, hmem]

theorem linksLoop_seen_mono (base : UrlParts) :
    ∀ (l : List Anchor) (st : List String × List LinkEntry) (x : String),
      x ∈ st.1 → x ∈ (linksLoop base st l).1 := by
  intro l
  induction l with
  | nil => intro st x h; exact h
  | cons a t ih =>
    intro st x h
    simp only [linksLoop]
    apply ih
    rw [linkStep_eq]
    cases anchorEntry base a with
    | none => exact h
    | some e =>
      simp only
      split
      · exact h
      · simp [h]

theorem linksLoop_seen_covers (base : UrlParts) :
    ∀ (l : List Anchor) (st : List String × List LinkEntry) (a : Anchor),
      a ∈ l → ∀ e, anchorEntry base a = some e → e.href ∈ (linksLoop base st l).1 := by
  intro l
  induction l with
  | nil => intro st a ha; simp at ha
  | cons b t ih =>
    intro st a ha e he
    rcases List.mem_cons.mp ha with rfl | ha
    · simp only [linksLoop]
      apply linksLoop_seen_mono
      rw [linkStep_eq, he]
      simp only
      split
      · assumption
      · simp
    · exact ih _ a ha e he

theorem linksLoop_mem (base : UrlParts) :
    ∀ (l : List Anchor) (st : List String × List LinkEntry) (e : LinkEntry),
      st.1 = st.2.map (·.href) →
      e ∈ (linksLoop base st l).2 →
      e ∈ st.2 ∨ (e.href ∉ st.1 ∧
        (l.filterMap (anchorEntry base)).find? (fun x => x.href == e.href) = some e) := by
  intro l
  induction l with
  | nil => intro st e _ h; exact Or.inl h
  | cons a t ih =>
    intro st e hinv hmem
    simp only [linksLoop] at hmem
    cases he : anchorEntry base a with
    | none =>
      rw [linkStep_eq, he] at hmem
      simpa [List.filterMap_cons, he] using ih st e hinv hmem
    | some e' =>
      rw [linkStep_eq, he] at hmem
      simp only at hmem
      by_cases hseen : e'.href ∈ st.1
      · rw [if_pos hseen] at hmem
        rcases ih st e hinv hmem with h | ⟨hnot, hfind⟩
        · exact Or.inl h
        · refine Or.inr ⟨hnot, ?_⟩
          have hne : (e'.href == e.href) = false := by
            simp only [beq_eq_false_iff_ne, ne_eq]
            intro hEq
            exact hnot (hEq ▸ hseen)
          simp [List.filterMap_cons, he, List.find?_cons, hne, hfind]
      · rw [if_neg hseen] at hmem
        have hinv' : (st.1 ++ [e'.href]) = (st.2 ++ [e']).map (·.href) := by simp [hinv]
        rcases ih _ e hinv' hmem with h | ⟨hnot, hfind⟩
        · rcases List.mem_append.mp h with h | h
          · exact Or.inl h
          · have hEq : e = e' := by simpa using h
            subst hEq
            refine Or.inr ⟨hseen, ?_⟩
            simp [List.filterMap_cons, he, List.find?_cons]
        · have hnot₁ : e.href ∉ st.1 := fun hx => hnot (List.mem_append.mpr (Or.inl hx))
          have hne : (e'.href == e.href) = false := by
            simp only [beq_eq_false_iff_ne, ne_eq]
            intro hEq
            exact hnot (List.mem_append.mpr (Or.inr (by simp [hEq])))
          refine Or.inr ⟨hnot₁, ?_⟩
          simp [List.filterMap_cons, he, List.find?_cons, hne, hfind]

/-- First-occurrence characterization of the extracted links: every entry
is the one contributed by the first anchor (over both passes, in document
order) that resolves to its href. -/
theorem extractLinks_first (base : UrlParts) (as bs : List Anchor) (e : LinkEntry)
    (h : e ∈ extractLinks base as bs) :
    ((as ++ bs).filterMap (anchorEntry base)).find? (fun x => x.href == e.href) = some e := by
  unfold extractLinks at h
  have hinvA : ([] : List String) = ([] : List LinkEntry).map (·.href) := rfl
  have hinvB := linksLoop_inv base as ([], []) hinvA
  rcases linksLoop_mem base bs _ e hinvB h with hA | ⟨hnot, hfind⟩
  · rcases linksLoop_mem base as ([], []) e hinvA hA with h0 | ⟨-, hfind⟩
    · simp at h0
    · rw [List.filterMap_append, List.find?_append, hfind]
      rfl
  · rw [List.filterMap_append, List.find?_append]
    have hnone : (as.filterMap (anchorEntry base)).find? (fun x => x.href == e.href) = none := by
      rw [List.find?_eq_none]
      intro x hx
      rcases List.mem_filterMap.mp hx with ⟨a, ha, hae⟩
      simp only [beq_eq_false_iff_ne, ne_eq, Bool.not_eq_true]
      intro hEq
      exact hnot (hEq ▸ linksLoop_seen_covers base as ([], []) a ha x hae)
    rw [hnone, hfind]
    rfl

theorem anchorEntry_external (base : UrlParts) (a : Anchor) (e : LinkEntry)
    (h : anchorEntry base a = some e) :
    e.external = !hasPref e.href (originOf base) := by
  unfold anchorEntry at h
  split at h
  · exact absurd h (by simp)
  · split at h
    · exact absurd h (by simp)
    · cases h; rfl

/-- The claim's own skip set (the code additionally skips whitespace-only
hrefs). -/
def claimSkipHref (href : String) : Bool :=
  href = "" || hasPref href "javascript:" || hasPref href "mailto:" || hasPref href "tel:"

theorem skipHref_of_claimSkip (href : String) (h : claimSkipHref href = true) :
    skipHref href = true := by
  unfold claimSkipHref at h
  unfold skipHref
  rcases Bool.or_eq_true_iff.mp h with h | h
  · rcases Bool.or_eq_true_iff.mp h with h | h
    · rcases Bool.or_eq_true_iff.mp h with h | h <;> simp [h]
    · simp [h]
  · simp [h]

/-- The source document used in the C2/C7 examples
(`https://example.com/page`, already validated and parsed). -/
def exBase : UrlParts := ⟨"https", "example.com", none, "/page"⟩

/-- C2 (amended): for every anchor, the `external` flag is true exactly
when the resolved href does not have the normalized source origin as a
string prefix (the code tests `!fullUrl.startsWith(baseOrigin)`, not a
parsed-origin comparison); `<a href="/about">` on `https://example.com/page`
resolves to `https://example.com/about` with external=false, and
`<a href="https://other.com/x">` is external=true. -/
theorem c2_external :
    extractLinksDoc exBase [⟨"/about", "About", "", ""⟩] =
      [⟨"About", "https://example.com/about", false⟩] ∧
    extractLinksDoc exBase [⟨"https://other.com/x", "X", "", ""⟩] =
      [⟨"X", "https://other.com/x", true⟩] ∧
    (∀ base as bs e, e ∈ extractLinks base as bs →
      e.external = !hasPref e.href (originOf base)) := by
  refine ⟨by decide, by decide, ?_⟩
  intro base as bs e h
  have hfind := extractLinks_first base as bs e h
  have hmem := List.mem_of_find?_eq_some hfind
  rcases List.mem_filterMap.mp hmem with ⟨a, -, hae⟩
  exact anchorEntry_external base a e hae

/-- Witness for C2: the external-flag characterization applied to the
concrete `other.com` anchor. -/
theorem c2_external_witness :
    (⟨"X", "https://other.com/x", true⟩ : LinkEntry).external =
      !hasPref (⟨"X", "https://other.com/x", true⟩ : LinkEntry).href (originOf exBase) :=
  c2_external.2.2 exBase [⟨"https://other.com/x", "X", "", ""⟩]
    [⟨"https://other.com/x", "X", "", ""⟩] ⟨"X", "https://other.com/x", true⟩
    (by decide)

/-- Counterexample to C2 as stated: on source `https://example.com/page`,
the anchor `https://example.com.evil.org/x` resolves to a URL whose origin
(`https://example.com.evil.org`) differs from the source origin
(`https://example.com`), yet the produced entry has external=false, because
the code only tests for a string prefix. -/
theorem c2_external_cex :
    extractLinksDoc exBase [⟨"https://example.com.evil.org/x", "X", "", ""⟩] =
      [⟨"X", "https://example.com.evil.org/x", false⟩] ∧
    originOfUrl "https://example.com.evil.org/x" = some "https://example.com.evil.org" ∧
    originOfUrl "https://example.com/page" = some "https://example.com" ∧
    ("https://example.com.evil.org" : String) ≠ "https://example.com" := by decide

/-- C7: the links pass skips every anchor whose href is empty or starts
with `javascript:`, `mailto:` or `tel:` (removing such an anchor from
either pass leaves the result unchanged); no two entries share a resolved
href; and every retained entry is the one contributed by the first anchor
in document order resolving to that href, with its display text given by
the text / aria-label / title / href fallback chain of that anchor
(`anchorEntry`/`anchorText`). -/
theorem c7_links :
    (∀ base (xs ys bs : List Anchor) a, claimSkipHref a.href = true →
      extractLinks base (xs ++ a :: ys) bs = extractLinks base (xs ++ ys) bs) ∧
    (∀ base (as zs ws : List Anchor) b, claimSkipHref b.href = true →
      extractLinks base as (zs ++ b :: ws) = extractLinks base as (zs ++ ws)) ∧
    (∀ base (as bs : List Anchor), ((extractLinks base as bs).map (·.href)).Nodup) ∧
    (∀ base (as bs : List Anchor) e, e ∈ extractLinks base as bs →
      ((as ++ bs).filterMap (anchorEntry base)).find? (fun x => x.href == e.href) = some e) := by
  refine ⟨?_, ?_, ?_, fun base as bs e h => extractLinks_first base as bs e h⟩
  · intro base xs ys bs a ha
    have hs : skipHref a.href = true := skipHref_of_claimSkip a.href ha
    unfold extractLinks
    rw [linksLoop_append, linksLoop_append]
    simp [linksLoop, linkStep, hs]
  · intro base as zs ws b hb
    have hs : skipHref b.href = true := skipHref_of_claimSkip b.href hb
    unfold extractLinks
    rw [linksLoop_append, linksLoop_append]
    simp [linksLoop, linkStep, hs]
  · intro base as bs
    have h := linksLoop_inv base bs (linksLoop base ([], []) as)
      (linksLoop_inv base as ([], []) rfl)
    unfold extractLinks
    rw [← h]
    exact linksLoop_seen_nodup base bs _ (linksLoop_seen_nodup base as ([], []) (by simp))

/-- Witness for C7: skipping, dedup-by-first-occurrence and the text
fallback evaluated on a concrete document (a `mailto:` anchor, two anchors
resolving to `https://example.com/about` where the first wins, and an
anchor whose display text falls back to its aria-label). -/
theorem c7_links_witness :
    extractLinks exBase
      (([⟨"/about", "About", "", ""⟩] : List Anchor) ++
        (⟨"mailto:x@y.z", "Mail", "", ""⟩ : Anchor) ::
        [⟨"/about", "Other", "", ""⟩, ⟨"/team", "", "Team", "T"⟩]) [] =
      extractLinks exBase
        (([⟨"/about", "About", "", ""⟩] : List Anchor) ++
          [⟨"/about", "Other", "", ""⟩, ⟨"/team", "", "Team", "T"⟩]) [] ∧
    ((([⟨"/about", "About", "", ""⟩, ⟨"/about", "Other", "", ""⟩,
        ⟨"/team", "", "Team", "T"⟩] : List Anchor) ++ ([] : List Anchor)).filterMap
        (anchorEntry exBase)).find?
      (fun x => x.href == "https://example.com/about") =
      some ⟨"About", "https://example.com/about", false⟩ :=
  ⟨c7_links.1 exBase [⟨"/about", "About", "", ""⟩]
      [⟨"/about", "Other", "", ""⟩, ⟨"/team", "", "Team", "T"⟩] []
      ⟨"mailto:x@y.z", "Mail", "", ""⟩ (by decide),
   by
    have h := c7_links.2.2.2 exBase
      [⟨"/about", "About", "", ""⟩, ⟨"/about", "Other", "", ""⟩, ⟨"/team", "", "Team", "T"⟩]
      [] ⟨"About", "https://example.com/about", false⟩ (by decide)
    simpa using h⟩

/-! ## Image extraction (`extractWebsiteData`, images pass)

The pass reads `img[src]` elements, then the four favicon `link[rel]`
selectors in listed order, then unconditionally considers the default
`{origin}/favicon.ico`, deduplicating by resolved src throughout. -/

structure ImgEntry where
  src : String
  alt : String
deriving DecidableEq, Repr

/-- Model of `resolveImageSrc`. -/
def resolveImageSrc (base : UrlParts) (src : String) : String :=
  if src = "" || jsTrim src = "" then ""
  else if hasPref src "http://" || hasPref src "https://" then src
  else if hasPref src "//" then (base.scheme ++ ":") ++ src
  else if hasPref src "/" then originOf base ++ src
  else resolveRel base src

/-- An image document: `(src, alt)` of every `img[src]` element, and
`(href, sizes)` of every element matched by the four favicon link
selectors, in document order per selector. -/
structure ImgDoc where
  imgs : List (String × String)
  iconLinks : List (String × String)
  shortcutLinks : List (String × String)
  appleLinks : List (String × String)
  applePreLinks : List (String × String)

/-- One step of the `img[src]` loop. -/
def imgStep (base : UrlParts) (st : List String × List ImgEntry) (p : String × String) :
    List String × List ImgEntry :=
  if resolveImageSrc base p.1 = "" then st
  else if resolveImageSrc base p.1 ∈ st.1 then st
  else (st.1 ++ [resolveImageSrc base p.1], st.2 ++ [⟨resolveImageSrc base p.1, p.2⟩])

/-- One step of the favicon-link loop. -/
def favStep (base : UrlParts) (st : List String × List ImgEntry) (p : String × String) :
    List String × List ImgEntry :=
  if p.1 = "" then st
  else if resolveImageSrc base p.1 = "" ∨ resolveImageSrc base p.1 ∈ st.1 then st
  else (st.1 ++ [resolveImageSrc base p.1],
        st.2 ++ [⟨resolveImageSrc base p.1, if p.2 ≠ "" then "Favicon " ++ p.2 else "Favicon"⟩])

/-- State after the `img` and favicon-link loops, before the default guess. -/
def imagesPre (base : UrlParts) (d : ImgDoc) : List String × List ImgEntry :=
  (d.iconLinks ++ d.shortcutLinks ++ d.appleLinks ++ d.applePreLinks).foldl
    (favStep base) (d.imgs.foldl (imgStep base) ([], []))

/-- The images pass: collected images plus the default `/favicon.ico`
entry whenever that URL is not already present. -/
def extractImages (base : UrlParts) (d : ImgDoc) : List ImgEntry :=
  (if originOf base ++ "/favicon.ico" ∈ (imagesPre base d).1 then imagesPre base d
   else ((imagesPre base d).1 ++ [originOf base ++ "/favicon.ico"],
         (imagesPre base d).2 ++ [⟨originOf base ++ "/favicon.ico", "Favicon"⟩])).2

theorem imgFold_inv (base : UrlParts) :
    ∀ (l : List (String × String)) (st : List String × List ImgEntry),
      st.1 = st.2.map (·.src) → st.1.Nodup →
      (l.foldl (imgStep base) st).1 = (l.foldl (imgStep base) st).2.map (·.src) ∧
        (l.foldl (imgStep base) st).1.Nodup := by
  intro l
  induction l with
  | nil => intro st h1 h2; exact ⟨h1, h2⟩
  | cons p t ih =>
    intro st h1 h2
    simp only [List.foldl_cons]
    apply ih
    · unfold imgStep
      split
      · exact h1
      · split
        · exact h1
        · simp [h1]
    · unfold imgStep
      split
      · exact h2
      · split
        · exact h2
        · next h => simp [List.nodup_append, h2, h]

theorem favFold_inv (base : UrlParts) :
    ∀ (l : List (String × String)) (st : List String × List ImgEntry),
      st.1 = st.2.map (·.src) → st.1.Nodup →
      (l.foldl (favStep base) st).1 = (l.foldl (favStep base) st).2.map (·.src) ∧
        (l.foldl (favStep base) st).1.Nodup := by
  intro l
  induction l with
  | nil => intro st h1 h2; exact ⟨h1, h2⟩
  | cons p t ih =>
    intro st h1 h2
    simp only [List.foldl_cons]
    apply ih
    · unfold favStep
      split
      · exact h1
      · split
        · exact h1
        · simp [h1]
    · unfold favStep
      split
      · exact h2
      · split
        · exact h2
        · next h =>
          rw [not_or] at h
          simp [List.nodup_append, h2, h.2]

theorem imagesPre_inv (base : UrlParts) (d : ImgDoc) :
    (imagesPre base d).1 = (imagesPre base d).2.map (·.src) ∧ (imagesPre base d).1.Nodup := by
  unfold imagesPre
  have h := imgFold_inv base d.imgs ([], []) rfl (by simp)
  exact favFold_inv base _ _ h.1 h.2

/-- C9 (amended): the default favicon image entry `{origin}/favicon.ico`
is appended exactly when that URL is not already among the collected image
srcs, regardless of whether any of the four favicon `<link rel>` variants
exist; consequently the images list always contains the default favicon
URL, exactly once. -/
theorem c9_default_favicon :
    ∀ base d, (originOf base ++ "/favicon.ico") ∈ (extractImages base d).map (·.src) ∧
      ((extractImages base d).map (·.src)).Nodup := by
  intro base d
  obtain ⟨hinv, hnd⟩ := imagesPre_inv base d
  unfold extractImages
  by_cases h : originOf base ++ "/favicon.ico" ∈ (imagesPre base d).1
  · rw [if_pos h]
    exact ⟨hinv ▸ h, hinv ▸ hnd⟩
  · rw [if_neg h]
    constructor
    · simp
    · simp only [List.map_append]
      rw [← hinv]
      simp [List.nodup_append, hnd, h]

/-- Counterexample to C9 as stated: a document with one
`<link rel="icon" href="/icon.png">` and no other images still receives a
synthesized default `{origin}/favicon.ico` entry, although a favicon link
variant exists. -/
theorem c9_default_favicon_cex :
    extractImages exBase ⟨[], [("/icon.png", "")], [], [], []⟩ =
      [⟨"https://example.com/icon.png", "Favicon"⟩,
       ⟨"https://example.com/favicon.ico", "Favicon"⟩] := by decide

/-! ## Email extraction (`extractWebsiteData`, emails pass)

Candidates are gathered by the regex/mailto/attribute scans; each candidate
goes through `addEmail`, which lower-cases, validates and inserts into the
dedup set, and the set is finally sorted. The properties below hold for
every candidate list, hence for every document. -/

/-- Insertion into a JS `Set` modelled as a first-occurrence list. -/
def setInsert (l : List String) (x : String) : List String :=
  if x ∈ l then l else l ++ [x]

/-- The validity filter of `addEmail`, applied to the cleaned value. -/
def emailOk (e : String) : Bool :=
  e ≠ "" && 3 < e.data.length &&
  !containsSub e "example.com" && !containsSub e "test@" &&
  !containsSub e "noreply" && !containsSub e "no-reply" &&
  !hasPref e "@" && !hasSuff e "@" &&
  containsSub e "@" && (splitChAll '@' e.data).length = 2

/-- Model of `addEmail`. -/
def addEmail (set : List String) (email : String) : List String :=
  if email = "" then set
  else if emailOk (asciiLower (jsTrim email)) then setInsert set (asciiLower (jsTrim email))
  else set

/-- The emails result for a candidate list: validated set, sorted. -/
def emailsOf (candidates : List String) : List String :=
  List.insertionSort strLe (candidates.foldl addEmail [])

theorem char_toNat_ofNat (n : Nat) (h : n.isValidChar) : (Char.ofNat n).toNat = n := by
  unfold Char.ofNat
  rw [dif_pos h]
  rfl

theorem lowerCh_idem (c : Char) : lowerCh (lowerCh c) = lowerCh c := by
  by_cases h : 65 ≤ c.toNat ∧ c.toNat ≤ 90
  · have h1 : lowerCh c = Char.ofNat (c.toNat + 32) := by
      unfold lowerCh
      rw [if_pos (by simp [h.1, h.2])]
    have ht : (Char.ofNat (c.toNat + 32)).toNat = c.toNat + 32 :=
      char_toNat_ofNat _ (Or.inl (by omega))
    rw [h1]
    unfold lowerCh
    rw [if_neg (by rw [ht]; simp; omega)]
  · have h1 : lowerCh c = c := by
      unfold lowerCh
      rw [if_neg (by simp; omega)]
    rw [h1, h1]

theorem asciiLower_idem (s : String) : asciiLower (asciiLower s) = asciiLower s := by
  unfold asciiLower
  simp only [List.map_map]
  congr 1
  exact List.map_congr_left fun c _ => lowerCh_idem c

theorem splitChAll_ne_nil (c : Char) : ∀ l, splitChAll c l ≠ [] := by
  intro l
  induction l with
  | nil => simp [splitChAll]
  | cons a t ih =>
    unfold splitChAll
    split
    · simp
    · split
      · simp
      · simp

theorem splitChAll_length (c : Char) :
    ∀ l, (splitChAll c l).length = (l.filter (· = c)).length + 1 := by
  intro l
  induction l with
  | nil => rfl
  | cons a t ih =>
    unfold splitChAll
    by_cases h : a = c
    · rw [if_pos h]
      simp [List.filter_cons, h, ih]
    · simp only [if_neg h]
      split
      · next heq => exact absurd heq (splitChAll_ne_nil c t)
      · next g gs heq =>
        have := ih
        rw [heq] at this
        simp only [List.length_cons] at this ⊢
        simp [List.filter_cons, h, ← this]

/-- Invariant of the email accumulation set. -/
def emailInv (x : String) : Prop := emailOk x = true ∧ ∃ y, x = asciiLower y

theorem emailFold_inv :
    ∀ (cands : List String) (set : List String),
      (∀ x ∈ set, emailInv x) → set.Nodup →
      (∀ x ∈ cands.foldl addEmail set, emailInv x) ∧ (cands.foldl addEmail set).Nodup := by
  intro cands
  induction cands with
  | nil => intro set h1 h2; exact ⟨h1, h2⟩
  | cons e t ih =>
    intro set h1 h2
    simp only [List.foldl_cons]
    apply ih
    · intro x hx
      unfold addEmail at hx
      split at hx
      · exact h1 x hx
      · split at hx
        · next hok =>
          unfold setInsert at hx
          split at hx
          · exact h1 x hx
          · rcases List.mem_append.mp hx with h | h
            · exact h1 x h
            · have : x = asciiLower (jsTrim e) := by simpa using h
              exact this ▸ ⟨hok, ⟨jsTrim e, rfl⟩⟩
        · exact h1 x hx
    · unfold addEmail
      split
      · exact h2
      · split
        · unfold setInsert
          split
          · exact h2
          · next hn => simp [List.nodup_append, h2, hn]
        · exact h2

/-- C5: every element of the returned emails list is lower-cased, contains
exactly one `@`, neither starts nor ends with `@`, and contains none of
the substrings `example.com`, `test@`, `noreply`, `no-reply`; the list has
no duplicates and is sorted ascending. -/
theorem c5_emails (cands : List String) :
    (∀ x ∈ emailsOf cands,
      asciiLower x = x ∧
      (x.data.filter (· = '@')).length = 1 ∧
      hasPref x "@" = false ∧ hasSuff x "@" = false ∧
      containsSub x "example.com" = false ∧ containsSub x "test@" = false ∧
      containsSub x "noreply" = false ∧ containsSub x "no-reply" = false) ∧
    (emailsOf cands).Nodup ∧ List.Sorted strLe (emailsOf cands) := by
  obtain ⟨hinv, hnd⟩ := emailFold_inv cands [] (by simp) (by simp)
  refine ⟨?_, ?_, List.sorted_insertionSort strLe _⟩
  · intro x hx
    have hx' : x ∈ cands.foldl addEmail [] :=
      (List.perm_insertionSort strLe _).mem_iff.mp hx
    obtain ⟨hok, y, hy⟩ := hinv x hx'
    unfold emailOk at hok
    simp only [Bool.and_eq_true, Bool.not_eq_true', decide_eq_true_eq] at hok
    obtain ⟨⟨⟨⟨⟨⟨⟨⟨⟨-, -⟩, hex⟩, hta⟩, hnr⟩, hnr2⟩, hsp⟩, hsf⟩, -⟩, hsplit⟩ := hok
    refine ⟨by rw [hy, asciiLower_idem], ?_, hsp, hsf, hex, hta, hnr, hnr2⟩
    have := splitChAll_length '@' x.data
    rw [hsplit] at this
    omega
  · exact (List.perm_insertionSort strLe _).symm.nodup hnd

/-- Witness for C5: the guarantees evaluated at the concrete candidate
list `["Bob@Site.com"]`, whose extracted element is `bob@site.com`. -/
theorem c5_emails_witness :
    asciiLower "bob@site.com" = "bob@site.com" ∧
    ("bob@site.com".data.filter (· = '@')).length = 1 ∧
    hasPref "bob@site.com" "@" = false ∧ hasSuff "bob@site.com" "@" = false ∧
    containsSub "bob@site.com" "example.com" = false ∧
    containsSub "bob@site.com" "test@" = false ∧
    containsSub "bob@site.com" "noreply" = false ∧
    containsSub "bob@site.com" "no-reply" = false :=
  (c5_emails ["Bob@Site.com"]).1 "bob@site.com" (by decide)

/-! ## Content Selector/Formatter: markdown conversion

`extractContent` with `outputFormat=markdown` loads the body, applies the
include/exclude selector filters (no-ops when the selector lists are
empty, the only case exercised below), removes `script`/`style`/
`noscript`, optionally flattens anchors, and calls `convertToMarkdown`.
The document tree is modelled explicitly; `.text()` is the concatenation
of descendant text nodes and selectors enumerate elements in document
(preorder) order, as cheerio does. -/

inductive HNode where
  | elem (tag : String) (attrs : List (String × String)) (children : List HNode)
  | text (s : String)

mutual

/-- Model of cheerio `.text()`: concatenated descendant text. -/
def nodeText : HNode → String
  | .text s => s
  | .elem _ _ cs => nodesText cs

def nodesText : List HNode → String
  | [] => ""
  | n :: t => nodeText n ++ nodesText t

end

mutual

/-- All element nodes of a tree in document (preorder) order. -/
def descElems : HNode → List HNode
  | .text _ => []
  | .elem tag attrs cs => .elem tag attrs cs :: descList cs

def descList : List HNode → List HNode
  | [] => []
  | n :: t => descElems n ++ descList t

end

/-- Tag of a node (empty for text nodes). -/
def tagOf : HNode → String
  | .elem t _ _ => t
  | .text _ => ""

/-- Attribute access (absent attribute reads as the empty string). -/
def attrOf (n : HNode) (name : String) : String :=
  match n with
  | .elem _ attrs _ => ((attrs.find? (fun p => p.1 == name)).map (·.2)).getD ""
  | .text _ => ""

/-- Elements of the document matching one of the given tags, in document
order (model of a multi-tag cheerio selector). -/
def selTags (tags : List String) (doc : List HNode) : List HNode :=
  (descList doc).filter (fun n => tags.contains (tagOf n))

/-- Descendant elements of a node matching a tag (model of `.find(tag)`). -/
def findTag (tag : String) : HNode → List HNode
  | .text _ => []
  | .elem _ _ cs => (descList cs).filter (fun n => tagOf n == tag)

/-- Model of `String.prototype.replace` with a plain-string pattern
(first occurrence only). -/
def replaceFirstCh (l pat rep : List Char) : List Char :=
  match l with
  | [] => if pat = [] then rep else []
  | c :: t =>
    if hasPrefCh pat (c :: t) then rep ++ (c :: t).drop pat.length
    else c :: replaceFirstCh t pat rep

/-- Model of `String.prototype.replace` with a plain-string pattern. -/
def jsReplaceFirst (s pat rep : String) : String := ⟨replaceFirstCh s.data pat.data rep.data⟩

/-- Heading level from the tag name (`parseInt(tagName.charAt(1))`). -/
def headingLevel (t : String) : Nat :=
  match t.data with
  | _ :: c :: _ => c.toNat - 48
  | _ => 0

structure ContentOptions where
  textOnly : Bool
  ignoreLinks : Bool
deriving Repr

/-- The anchor-to-markdown rewriting inside one paragraph. -/
def paragraphText (opts : ContentOptions) (p : HNode) : String :=
  let base := jsTrim (nodeText p)
  if opts.ignoreLinks then base
  else
    (findTag "a" p).foldl
      (fun t a =>
        let href := attrOf a "href"
        let linkText := jsTrim (nodeText a)
        if href ≠ "" && linkText ≠ "" then
          jsReplaceFirst t linkText ("[" ++ linkText ++ "](" ++ href ++ ")")
        else t)
      base

/-- Model of `convertToMarkdown`: headings, paragraphs (with inline link
rewriting), lists, blockquotes, `pre` code fences and images, in source
order, followed by the plain-text fallback and a final trim. -/
def convertToMarkdown (doc : List HNode) (opts : ContentOptions) : String :=
  let md1 := (selTags ["h1", "h2", "h3", "h4", "h5", "h6"] doc).foldl
    (fun md n =>
      let text := jsTrim (nodeText n)
      if text ≠ "" then
        md ++ ⟨List.replicate (headingLevel (tagOf n)) '#'⟩ ++ " " ++ text ++ "\n\n"
      else md) ""
  let md2 := (selTags ["p"] doc).foldl
    (fun md p =>
      let text := paragraphText opts p
      if text ≠ "" then md ++ text ++ "\n\n" else md) md1
  let md3 := (selTags ["ul", "ol"] doc).foldl
    (fun md n =>
      ((findTag "li" n).enum.foldl
        (fun md q =>
          let text := jsTrim (nodeText q.2)
          if text ≠ "" then
            md ++ (if tagOf n == "ol" then natToDecStr (q.1 + 1) ++ ". " else "- ") ++
              text ++ "\n"
          else md) md) ++ "\n") md2
  let md4 := (selTags ["blockquote"] doc).foldl
    (fun md n =>
      let text := jsTrim (nodeText n)
      if text ≠ "" then md ++ "> " ++ text ++ "\n\n" else md) md3
  let md5 := (selTags ["pre"] doc).foldl
    (fun md n =>
      let code := jsTrim (nodeText n)
      if code ≠ "" then md ++ "```\n" ++ code ++ "\n```\n\n" else md) md4
  let md6 :=
    if opts.textOnly then md5
    else (selTags ["img"] doc).foldl
      (fun md n =>
        let src := attrOf n "src"
        let alt := attrOf n "alt"
        if src ≠ "" then md ++ "![" ++ alt ++ "](" ++ src ++ ")\n\n" else md) md5
  let md7 := if jsTrim md6 = "" then nodesText doc else md6
  jsTrim md7

mutual

/-- Removal of `script`/`style`/`noscript` subtrees. -/
def stripTags (bad : List String) : HNode → Option HNode
  | .text s => some (.text s)
  | .elem t a cs => if bad.contains t then none else some (.elem t a (stripTagsList bad cs))

def stripTagsList (bad : List String) : List HNode → List HNode
  | [] => []
  | n :: t =>
    match stripTags bad n with
    | none => stripTagsList bad t
    | some m => m :: stripTagsList bad t

end

mutual

/-- Model of the `ignoreLinks` pass: every anchor is replaced by its
plain text. -/
def unwrapAnchors : HNode → HNode
  | .text s => .text s
  | .elem t a cs =>
    if t == "a" then .text (nodeText (.elem t a cs))
    else .elem t a (unwrapAnchorsList cs)

def unwrapAnchorsList : List HNode → List HNode
  | [] => []
  | n :: t => unwrapAnchors n :: unwrapAnchorsList t

end

/-- The markdown path of `extractContent` with empty include/exclude
selector lists (selector filtering is a no-op there): strip
`script`/`style`/`noscript`, apply `ignoreLinks`, convert. -/
def extractContentMarkdown (doc : List HNode) (opts : ContentOptions) : String :=
  let d := stripTagsList ["script", "style", "noscript"] doc
  convertToMarkdown (if opts.ignoreLinks then unwrapAnchorsList d else d) opts

/-- The document of the C8 example. -/
def demoDoc : List HNode :=
  [.elem "h1" [] [.text "Title"],
   .elem "p" [] [.text "Hello ", .elem "a" [("href", "/x")] [.text "there"]]]

/-- C8 (amended): markdown content extraction on
`<h1>Title</h1><p>Hello <a href="/x">there</a></p>` with
`textOnly=false`, `ignoreLinks=false` and no selectors returns exactly
`# Title\n\nHello [there](/x)` — the conversion builds the claimed string
but the final `.trim()` removes the trailing blank line. -/
theorem c8_markdown :
    extractContentMarkdown demoDoc ⟨false, false⟩ = "# Title\n\nHello [there](/x)" := by
  decide

/-- Counterexample to C8 as stated: the result does not carry the claimed
trailing blank line, because `convertToMarkdown` ends with `.trim()`. -/
theorem c8_markdown_cex :
    extractContentMarkdown demoDoc ⟨false, false⟩ ≠ "# Title\n\nHello [there](/x)\n\n" := by
  decide

/-! ## Color extraction (`extractWebsiteData`, colors pass)

Candidates come from three scans: inline `style` attributes (first match
each of the `background(-color)`, `color` and `border(-color)` regexes),
`style` block bodies (all matches of the same three patterns with `{}` in
the stop set), and a raw sweep of the serialized markup for hex and
`rgb()/rgba()` literals. Every candidate goes through `addColor`, which
canonicalizes via `colorToHex`, accumulates a frequency map keyed by hex,
and the map is finally sorted by frequency descending then hex ascending
and truncated to 50.

The regex matchers below reimplement the exact patterns of the source
character by character, including their case-insensitivity, first-match
vs global semantics (global scans resume after the end of each match;
the scanners carry a length-bounded fuel argument purely as a
termination measure), alternation order and backtracking behaviour. -/

structure ColorEntry where
  value : String
  hex : String
  rgb : String
  usage : String
  frequency : Nat
deriving DecidableEq, Repr

/-- Case-insensitive literal prefix test (`kw` given in lowercase). -/
def ciPrefCh : List Char → List Char → Bool
  | [], _ => true
  | _ :: _, [] => false
  | k :: ks, c :: cs => lowerCh c = k && ciPrefCh ks cs

/-- Lowercase hex digit renderer (`toString(16)` digit). -/
def hexDigitCh (d : Nat) : Char :=
  if d < 10 then Char.ofNat (48 + d) else Char.ofNat (87 + d)

/-- Most-significant-first base-16 rendering with a fuel bound
(model of `Number.prototype.toString(16)` on naturals). -/
def natToHexGo : Nat → Nat → List Char
  | 0, _ => []
  | fuel + 1, n => if n < 16 then [hexDigitCh n] else natToHexGo fuel (n / 16) ++ [hexDigitCh (n % 16)]

/-- Model of `Number.prototype.toString(16)`. -/
def natToHexCh (n : Nat) : List Char := natToHexGo (n + 1) n

/-- The `rgba?\((\d+),\s*(\d+),\s*(\d+)(?:,\s*[\d.]+)?\)` matcher at one
position (the strict pattern of `colorToHex`: no space after `(` or
before commas). -/
def rgbStrictAt (l : List Char) : Option (Nat × Nat × Nat) :=
  match l with
  | 'r' :: 'g' :: 'b' :: rest =>
    let rest2 :=
      match rest with
      | 'a' :: '(' :: r => some r
      | '(' :: r => some r
      | _ => none
    match rest2 with
    | none => none
    | some r =>
      let d1 := r.takeWhile isDigitCh
      if d1 = [] then none
      else
        match r.drop d1.length with
        | ',' :: r2 =>
          let r2w := r2.dropWhile isWsCh
          let d2 := r2w.takeWhile isDigitCh
          if d2 = [] then none
          else
            match r2w.drop d2.length with
            | ',' :: r3 =>
              let r3w := r3.dropWhile isWsCh
              let d3 := r3w.takeWhile isDigitCh
              if d3 = [] then none
              else
                match r3w.drop d3.length with
                | ')' :: _ => some (natOfDigits d1, natOfDigits d2, natOfDigits d3)
                | ',' :: r4 =>
                  let r4w := r4.dropWhile isWsCh
                  let a := r4w.takeWhile (fun c => isDigitCh c || c = '.')
                  if a = [] then none
                  else
                    match r4w.drop a.length with
                    | ')' :: _ => some (natOfDigits d1, natOfDigits d2, natOfDigits d3)
                    | _ => none
                | _ => none
            | _ => none
        | _ => none
  | _ => none

/-- Unanchored search with the strict rgb pattern (`String.match`). -/
def rgbScan : List Char → Option (Nat × Nat × Nat)
  | [] => none
  | c :: t =>
    match rgbStrictAt (c :: t) with
    | some v => some v
    | none => rgbScan t

/-- The named-color table of `colorToHex`. -/
def namedColors : List (String × String) :=
  [("black", "#000000"), ("white", "#ffffff"), ("red", "#ff0000"), ("green", "#008000"),
   ("blue", "#0000ff"), ("yellow", "#ffff00"), ("cyan", "#00ffff"), ("magenta", "#ff00ff"),
   ("silver", "#c0c0c0"), ("gray", "#808080"), ("maroon", "#800000"), ("olive", "#808000"),
   ("lime", "#00ff00"), ("aqua", "#00ffff"), ("teal", "#008080"), ("navy", "#000080"),
   ("fuchsia", "#ff00ff"), ("purple", "#800080"), ("orange", "#ffa500"), ("pink", "#ffc0cb"),
   ("transparent", "transparent")]

/-- The `color.trim().toLowerCase()` step of `colorToHex`. -/
def cleanColor (color : String) : String := asciiLower (jsTrim color)

/-- The 3-digit hex expansion (`#abc` to `#aabbcc`), without validation. -/
def expand3 (c : String) : String :=
  match c.data with
  | _ :: c1 :: c2 :: c3 :: _ => ⟨['#', c1, c1, c2, c2, c3, c3]⟩
  | _ => ""

/-- Model of `colorToHex`: trim and lower-case, expand 3-digit hex, pass
7-character hex strings through unvalidated, convert rgb()/rgba()
channels via base-16 formatting, look up named colors, else empty. -/
def colorToHex (color : String) : String :=
  if hasPref (cleanColor color) "#" then
    if (cleanColor color).data.length = 4 then expand3 (cleanColor color)
    else if (cleanColor color).data.length = 7 then cleanColor color else ""
  else
    match rgbScan (cleanColor color).data with
    | some (r, g, b) =>
      ⟨'#' :: (pad2 (natToHexCh r) ++ pad2 (natToHexCh g) ++ pad2 (natToHexCh b))⟩
    | none =>
      match namedColors.find? (fun p => p.1 == cleanColor color) with
      | some p => p.2
      | none => ""

/-- Numeric value of one hex digit. -/
def hexVal (c : Char) : Nat :=
  if isDigitCh c then c.toNat - 48
  else if 97 ≤ c.toNat && c.toNat ≤ 102 then c.toNat - 87
  else if 65 ≤ c.toNat && c.toNat ≤ 70 then c.toNat - 55
  else 0

/-- Model of `hexToRgb` (regex `/^#?([a-f\d]{2})([a-f\d]{2})([a-f\d]{2})$/i`). -/
def hexToRgb (hex : String) : String :=
  if hex = "" || hex = "transparent" || !hasPref hex "#" then ""
  else
    let l := match hex.data with
             | '#' :: t => t
             | t => t
    match l with
    | [a, b, c, d, e, f] =>
      if [a, b, c, d, e, f].all isHexCh then
        "rgb(" ++ natToDecStr (hexVal a * 16 + hexVal b) ++ ", " ++
          natToDecStr (hexVal c * 16 + hexVal d) ++ ", " ++
          natToDecStr (hexVal e * 16 + hexVal f) ++ ")"
      else ""
    | _ => ""

/-- Bump the frequency (and possibly extend the usage labels) of the
entry keyed by `key` (JS `Map` mutation of the existing record). -/
def bumpEntry (m : List ColorEntry) (key usage : String) : List ColorEntry :=
  m.map fun e =>
    if e.hex = key then
      { e with
        frequency := e.frequency + 1,
        usage := if containsSub e.usage usage then e.usage else e.usage ++ ", " ++ usage }
    else e

/-- Model of `addColor`. -/
def addColor (m : List ColorEntry) (colorValue usage : String) : List ColorEntry :=
  if colorValue = "" || jsTrim colorValue = "" || colorValue = "inherit" ||
      colorValue = "initial" || colorValue = "unset" then m
  else if colorToHex colorValue = "" || colorToHex colorValue = "transparent" then m
  else if m.any (fun e => e.hex = colorToHex colorValue) then
    bumpEntry m (colorToHex colorValue) usage
  else
    m ++ [⟨colorValue, colorToHex colorValue, hexToRgb (colorToHex colorValue), usage, 1⟩]

/-- One attempt of the `kw(?:-color)?\s*:\s*([^<stop>]+)` pattern at a
position; returns the capture and the remainder after the match. -/
def declCaptureAt (kw : List Char) (optSuffix : Bool) (stop : List Char) (l : List Char) :
    Option (List Char × List Char) :=
  if ciPrefCh kw l then
    let afterKw := l.drop kw.length
    let tryFrom := fun (r : List Char) =>
      match (r.dropWhile isWsCh : List Char) with
      | ':' :: r2 =>
        let cap := r2.takeWhile (fun c => !stop.contains c)
        if cap = [] then none else some (cap, r2.drop cap.length)
      | _ => none
    match (if optSuffix && ciPrefCh "-color".data afterKw then tryFrom (afterKw.drop 6)
           else none) with
    | some res => some res
    | none => tryFrom afterKw
  else none

/-- First match of the declaration pattern (non-global `String.match`). -/
def declCapture (kw : List Char) (optSuffix : Bool) (stop : List Char) :
    List Char → Option (List Char)
  | [] => none
  | c :: t =>
    match declCaptureAt kw optSuffix stop (c :: t) with
    | some res => some res.1
    | none => declCapture kw optSuffix stop t

/-- Fueled global scan for the declaration pattern, resuming after each
match end (regex `lastIndex` semantics). -/
def declCapturesGo (kw : List Char) (optSuffix : Bool) (stop : List Char) :
    Nat → List Char → List (List Char)
  | 0, _ => []
  | _, [] => []
  | fuel + 1, c :: t =>
    match declCaptureAt kw optSuffix stop (c :: t) with
    | some res => res.1 :: declCapturesGo kw optSuffix stop fuel res.2
    | none => declCapturesGo kw optSuffix stop fuel t

/-- All matches of the declaration pattern (global regex). -/
def declCapturesAll (kw : List Char) (optSuffix : Bool) (stop : List Char) (l : List Char) :
    List (List Char) :=
  declCapturesGo kw optSuffix stop l.length l

/-- Whitespace or end of input (the `(?:\s|$)` tail). -/
def wsOrEnd : List Char → Bool
  | [] => true
  | c :: _ => isWsCh c

/-- One attempt of the border-value alternation
`(#[0-9a-f]{3,6}|rgb\([^)]+\)|[a-z]+)(?:\s|$)` at a position. -/
def borderAltAt (l : List Char) : Option (List Char) :=
  match l with
  | '#' :: t =>
    let r := t.takeWhile isHexCh
    if 3 ≤ r.length && r.length ≤ 6 && wsOrEnd (t.drop r.length) then some ('#' :: r)
    else none
  | _ =>
    if ciPrefCh "rgb(".data l then
      let inner := (l.drop 4).takeWhile (· ≠ ')')
      match (l.drop 4).drop inner.length with
      | ')' :: rest =>
        if inner ≠ [] && wsOrEnd rest then some (l.take (4 + inner.length + 1)) else none
      | _ => none
    else
      let r := l.takeWhile isAlphaCh
      if r ≠ [] && wsOrEnd (l.drop r.length) then some r else none

/-- First match of the border-color pattern, whose start is anchored at
the beginning of the value or right after a whitespace character. -/
def borderScan : Bool → List Char → Option (List Char)
  | _, [] => none
  | atOk, c :: t =>
    match (if atOk then borderAltAt (c :: t) else none) with
    | some m => some m
    | none => borderScan (isWsCh c) t

/-- The inner capture applied to a matched border declaration value. -/
def borderColorCapture (l : List Char) : Option (List Char) := borderScan true l

/-- Candidates contributed by one inline `style` attribute, in source
order (background, color, border). -/
def inlineStyleCandidates (style : String) : List (String × String) :=
  ((declCapture "background".data true [';'] style.data).map
      (fun c => (jsTrim ⟨c⟩, "Background"))).toList ++
  ((declCapture "color".data false [';'] style.data).map
      (fun c => (jsTrim ⟨c⟩, "Text"))).toList ++
  ((declCapture "border".data true [';'] style.data).bind
      (fun b => (borderColorCapture (trimCh b)).map
        (fun m => (jsTrim ⟨m⟩, "Border")))).toList

/-- Candidates contributed by one `style` block body, in source order
(all background matches, then all color matches, then all border
matches). -/
def blockCandidates (block : String) : List (String × String) :=
  (declCapturesAll "background".data true [';', '{', '}'] block.data).map
    (fun c => (jsTrim ⟨c⟩, "Background")) ++
  (declCapturesAll "color".data false [';', '{', '}'] block.data).map
    (fun c => (jsTrim ⟨c⟩, "Text")) ++
  (declCapturesAll "border".data true [';', '{', '}'] block.data).filterMap
    (fun b => (borderColorCapture (trimCh b)).map (fun m => (jsTrim ⟨m⟩, "Border")))

/-- Word character (the `\b` class). -/
def isWordCh (c : Char) : Bool := isAlphaCh c || isDigitCh c || c = '_'

/-- Word boundary after a word character: next char absent or non-word. -/
def nonWordNext : List Char → Bool
  | [] => true
  | c :: _ => !isWordCh c

/-- One attempt of `#([0-9a-f]{3}|[0-9a-f]{6})\b` (case-insensitive,
3-digit alternative first); returns match and remainder. -/
def hexSweepAt (l : List Char) : Option (List Char × List Char) :=
  match l with
  | '#' :: t =>
    if (t.take 3).length = 3 && (t.take 3).all isHexCh && nonWordNext (t.drop 3) then
      some ('#' :: t.take 3, t.drop 3)
    else if (t.take 6).length = 6 && (t.take 6).all isHexCh && nonWordNext (t.drop 6) then
      some ('#' :: t.take 6, t.drop 6)
    else none
  | _ => none

/-- Fueled global hex-literal sweep of the serialized markup. -/
def hexSweepGo : Nat → List Char → List (List Char)
  | 0, _ => []
  | _, [] => []
  | fuel + 1, c :: t =>
    match hexSweepAt (c :: t) with
    | some (m, rest) => m :: hexSweepGo fuel rest
    | none => hexSweepGo fuel t

/-- All matches of the hex-literal regex. -/
def hexSweepAll (l : List Char) : List (List Char) := hexSweepGo l.length l

/-- One attempt of the whitespace-tolerant global rgb pattern
`rgba?\(\s*\d+\s*,\s*\d+\s*,\s*\d+(?:\s*,\s*[\d.]+)?\s*\)`; returns the
remainder after the match (the match itself is recovered by length). -/
def rgbLooseAt (l : List Char) : Option (List Char) :=
  if ciPrefCh "rgb".data l then
    let r0 := l.drop 3
    let r1 := if ciPrefCh "a".data r0 then r0.drop 1 else r0
    match r1 with
    | '(' :: r2 =>
      let w1 := r2.dropWhile isWsCh
      let d1 := w1.takeWhile isDigitCh
      if d1 = [] then none
      else
        match (w1.drop d1.length).dropWhile isWsCh with
        | ',' :: r3 =>
          let w2 := r3.dropWhile isWsCh
          let d2 := w2.takeWhile isDigitCh
          if d2 = [] then none
          else
            match (w2.drop d2.length).dropWhile isWsCh with
            | ',' :: r4 =>
              let w3 := r4.dropWhile isWsCh
              let d3 := w3.takeWhile isDigitCh
              if d3 = [] then none
              else
                match (w3.drop d3.length).dropWhile isWsCh with
                | ')' :: rest => some rest
                | ',' :: r5 =>
                  let w4 := r5.dropWhile isWsCh
                  let a := w4.takeWhile (fun c => isDigitCh c || c = '.')
                  if a = [] then none
                  else
                    match (w4.drop a.length).dropWhile isWsCh with
                    | ')' :: rest => some rest
                    | _ => none
                | _ => none
            | _ => none
        | _ => none
    | _ => none
  else none

/-- Fueled global loose-rgb sweep of the serialized markup. -/
def rgbSweepGo : Nat → List Char → List (List Char)
  | 0, _ => []
  | _, [] => []
  | fuel + 1, c :: t =>
    match rgbLooseAt (c :: t) with
    | some rest => (c :: t).take ((c :: t).length - rest.length) :: rgbSweepGo fuel rest
    | none => rgbSweepGo fuel t

/-- All matches of the loose rgb regex. -/
def rgbSweepAll (l : List Char) : List (List Char) := rgbSweepGo l.length l

/-- A color document: the inline `style` attribute values in document
order, the `style` block bodies in document order, and the serialized
markup swept by the raw-literal pass. -/
structure ColorDoc where
  inlineStyles : List String
  styleBlocks : List String
  rawHtml : String

/-- All `addColor` candidates of a document, in call order. -/
def docColorCandidates (d : ColorDoc) : List (String × String) :=
  (d.inlineStyles.map inlineStyleCandidates).flatten ++
  (d.styleBlocks.map blockCandidates).flatten ++
  (hexSweepAll d.rawHtml.data).map (fun m => (⟨m⟩, "Detected")) ++
  (rgbSweepAll d.rawHtml.data).map (fun m => (⟨m⟩, "Detected"))

/-- The sort order of the colors result: frequency descending, hex
ascending (the comparator `b.frequency - a.frequency || a.hex ≤ b.hex`). -/
def colorRel (a b : ColorEntry) : Prop :=
  b.frequency < a.frequency ∨ (b.frequency = a.frequency ∧ strLe a.hex b.hex)

instance : DecidableRel colorRel := fun a b => by unfold colorRel; infer_instance

instance : IsTotal ColorEntry colorRel where
  total a b := by
    unfold colorRel
    rcases Nat.lt_trichotomy a.frequency b.frequency with h | h | h
    · right; left; exact h
    · rcases lexLe_total a.hex.data b.hex.data with hb | hb
      · left; right; exact ⟨h.symm, hb⟩
      · right; right; exact ⟨h, hb⟩
    · left; left; exact h

instance : IsTrans ColorEntry colorRel where
  trans a b c hab hbc := by
    unfold colorRel at *
    rcases hab with h | ⟨h1, h2⟩ <;> rcases hbc with h' | ⟨h1', h2'⟩
    · left; omega
    · left; omega
    · left; omega
    · right; exact ⟨by omega, lexLe_trans _ _ _ h2 h2'⟩

/-- The colors pass: fold all candidates through `addColor`, sort, take 50. -/
def extractColors (d : ColorDoc) : List ColorEntry :=
  (List.insertionSort colorRel
    ((docColorCandidates d).foldl (fun m p => addColor m p.1 p.2) [])).take 50

/-! ### Properties of the color pipeline -/

/-- No uppercase ASCII letter occurs in the string. -/
def noUpper (s : String) : Bool := s.data.all (fun c => !(65 ≤ c.toNat && c.toNat ≤ 90))

/-- Lowercase hexadecimal digit. -/
def isLowerHexCh (c : Char) : Bool := isDigitCh c || (97 ≤ c.toNat && c.toNat ≤ 102)

/-- The glossary's canonical hex shape: `#` followed by exactly six
lowercase hex digits. -/
def canonical6 (s : String) : Bool :=
  match s.data with
  | '#' :: t => t.length = 6 && t.all isLowerHexCh
  | _ => false

/-- A well-formed color literal: after trim/lower-casing, a `#`-prefixed
3- or 6-hex-digit value, an in-range strict `rgb()/rgba()` literal, or a
named color other than `transparent`. -/
def wellFormedColor (v : String) : Bool :=
  (hasPref (cleanColor v) "#" && (cleanColor v).data.tail.all isLowerHexCh &&
    ((cleanColor v).data.length = 4 || (cleanColor v).data.length = 7)) ||
  (!hasPref (cleanColor v) "#" &&
    (match rgbScan (cleanColor v).data with
     | some (r, g, b) => r ≤ 255 && g ≤ 255 && b ≤ 255
     | none => false)) ||
  (!hasPref (cleanColor v) "#" && rgbScan (cleanColor v).data = none &&
    (namedColors.find? (fun p => p.1 == cleanColor v)).isSome &&
    cleanColor v ≠ "transparent")

theorem lowerCh_not_upper (c : Char) :
    (!(65 ≤ (lowerCh c).toNat && (lowerCh c).toNat ≤ 90)) = true := by
  unfold lowerCh
  by_cases h : 65 ≤ c.toNat ∧ c.toNat ≤ 90
  · rw [if_pos (by simp [h.1, h.2])]
    have ht : (Char.ofNat (c.toNat + 32)).toNat = c.toNat + 32 :=
      char_toNat_ofNat _ (Or.inl (by omega))
    rw [ht]
    simp
    omega
  · rw [if_neg (by simp; omega)]
    simp
    omega

theorem cleanColor_noUpper (v : String) : noUpper (cleanColor v) = true := by
  unfold cleanColor asciiLower noUpper
  rw [List.all_eq_true]
  intro c hc
  rcases List.mem_map.mp hc with ⟨y, -, rfl⟩
  exact lowerCh_not_upper y

theorem mem_of_noUpper (s : String) (h : noUpper s = true) (c : Char) (hc : c ∈ s.data) :
    (!(65 ≤ c.toNat && c.toNat ≤ 90)) = true :=
  List.all_eq_true.mp h c hc

theorem natToHexGo_chars (fuel n : Nat) (c : Char) (h : c ∈ natToHexGo fuel n) :
    ∃ d, d < 16 ∧ c = hexDigitCh d := by
  induction fuel generalizing n with
  | zero => simp [natToHexGo] at h
  | succ fuel ih =>
    unfold natToHexGo at h
    split at h
    · next hn => exact ⟨n, hn, by simpa using h⟩
    · rcases List.mem_append.mp h with h | h
      · exact ih _ h
      · exact ⟨n % 16, Nat.mod_lt _ (by omega), by simpa using h⟩

theorem hexDigitCh_lowerHex (d : Nat) (h : d < 16) : isLowerHexCh (hexDigitCh d) = true := by
  unfold hexDigitCh isLowerHexCh isDigitCh
  by_cases h10 : d < 10
  · rw [if_pos h10]
    have ht : (Char.ofNat (48 + d)).toNat = 48 + d :=
      char_toNat_ofNat _ (Or.inl (by omega))
    simp [ht]
    omega
  · rw [if_neg h10]
    have ht : (Char.ofNat (87 + d)).toNat = 87 + d :=
      char_toNat_ofNat _ (Or.inl (by omega))
    simp [ht]
    omega

theorem hexDigitCh_not_upper (d : Nat) (h : d < 16) :
    (!(65 ≤ (hexDigitCh d).toNat && (hexDigitCh d).toNat ≤ 90)) = true := by
  unfold hexDigitCh
  by_cases h10 : d < 10
  · rw [if_pos h10]
    have ht : (Char.ofNat (48 + d)).toNat = 48 + d :=
      char_toNat_ofNat _ (Or.inl (by omega))
    simp [ht]
    omega
  · rw [if_neg h10]
    have ht : (Char.ofNat (87 + d)).toNat = 87 + d :=
      char_toNat_ofNat _ (Or.inl (by omega))
    simp [ht]
    omega

theorem pad2_natToHex_le255 (r : Nat) (h : r ≤ 255) :
    (pad2 (natToHexCh r)).length = 2 ∧ (pad2 (natToHexCh r)).all isLowerHexCh = true := by
  have hchars : ∀ c ∈ natToHexCh r, isLowerHexCh c = true := by
    intro c hc
    obtain ⟨d, hd, rfl⟩ := natToHexGo_chars _ _ c hc
    exact hexDigitCh_lowerHex d hd
  have hlen : (natToHexCh r).length = 1 ∨ (natToHexCh r).length = 2 := by
    unfold natToHexCh
    by_cases h16 : r < 16
    · left; simp [natToHexGo, h16]
    · right
      obtain ⟨k, rfl⟩ : ∃ k, r = k + 1 := ⟨r - 1, by omega⟩
      show (natToHexGo (k + 1 + 1) (k + 1)).length = 2
      unfold natToHexGo
      rw [if_neg h16]
      have hdiv : (k + 1) / 16 < 16 := by omega
      unfold natToHexGo
      rw [if_pos hdiv]
      simp
  constructor
  · unfold pad2
    rcases hlen with h1 | h1 <;> simp [h1]
  · rw [List.all_eq_true]
    intro c hc
    unfold pad2 at hc
    split at hc
    · rcases List.mem_append.mp hc with hc | hc
      · have : c = '0' := by
          rcases List.eq_of_mem_replicate hc with rfl
          rfl
        subst this
        decide
      · exact hchars c hc
    · exact hchars c hc

theorem namedColors_shape :
    ∀ p ∈ namedColors, p.2 = "transparent" ∨
      (hasPref p.2 "#" = true ∧ noUpper p.2 = true ∧ canonical6 p.2 = true) := by
  decide

theorem pad2_chars (r : Nat) (c : Char) (hc : c ∈ pad2 (natToHexCh r)) :
    (∃ d, d < 16 ∧ c = hexDigitCh d) ∨ c = '0' := by
  unfold pad2 at hc
  split at hc
  · rcases List.mem_append.mp hc with hc | hc
    · exact Or.inr (List.eq_of_mem_replicate hc)
    · exact Or.inl (natToHexGo_chars _ _ c hc)
  · exact Or.inl (natToHexGo_chars _ _ c hc)

/-- Shape of every `colorToHex` output: empty, `transparent`, or
`#`-prefixed with no uppercase letters. -/
theorem colorToHex_shape (v : String) :
    colorToHex v = "" ∨ colorToHex v = "transparent" ∨
    (hasPref (colorToHex v) "#" = true ∧ noUpper (colorToHex v) = true) := by
  unfold colorToHex
  split
  · next hpref =>
    split
    · next hlen =>
      unfold expand3
      split
      · next c0 c1 c2 c3 rest heq =>
        refine Or.inr (Or.inr ⟨rfl, ?_⟩)
        unfold noUpper
        have hin : ∀ c ∈ (cleanColor v).data,
            (!(65 ≤ c.toNat && c.toNat ≤ 90)) = true :=
          mem_of_noUpper _ (cleanColor_noUpper v)
        have g1 := hin c1 (by rw [heq]; simp)
        have g2 := hin c2 (by rw [heq]; simp)
        have g3 := hin c3 (by rw [heq]; simp)
        simp at g1 g2 g3
        simp
        omega
      · exact Or.inl rfl
    · split
      · next hlen7 =>
        refine Or.inr (Or.inr ⟨?_, cleanColor_noUpper v⟩)
        exact hpref
      · exact Or.inl rfl
  · split
    · next r g b heq =>
      refine Or.inr (Or.inr ⟨rfl, ?_⟩)
      unfold noUpper
      rw [List.all_eq_true]
      intro c hc
      simp only [String.data] at hc
      rcases List.mem_cons.mp hc with rfl | hc
      · decide
      · have : (∃ d, d < 16 ∧ c = hexDigitCh d) ∨ c = '0' := by
          rcases List.mem_append.mp hc with hc | hc
          · rcases List.mem_append.mp hc with hc | hc
            · exact pad2_chars r c hc
            · exact pad2_chars g c hc
          · exact pad2_chars b c hc
        rcases this with ⟨d, hd, rfl⟩ | rfl
        · exact hexDigitCh_not_upper d hd
        · decide
    · split
      · next p hfind =>
        have hmem := List.mem_of_find?_eq_some hfind
        rcases namedColors_shape p hmem with ht | ⟨ha, hb, -⟩
        · exact Or.inr (Or.inl ht)
        · exact Or.inr (Or.inr ⟨ha, hb⟩)
      · exact Or.inl rfl

theorem data_of_hasPref_hash (s : String) (h : hasPref s "#" = true) :
    ∃ t, s.data = '#' :: t := by
  unfold hasPref at h
  rcases hd : s.data with _ | ⟨c, t⟩
  · rw [hd] at h; simp [hasPrefCh] at h
  · rw [hd] at h
    simp only [hasPrefCh, Bool.and_eq_true] at h
    have hc : '#' = c := by simpa using h.1
    exact ⟨t, by rw [← hc]⟩

theorem data_len4 (s : String) (h : s.data.length = 4) :
    ∃ a b c d, s.data = [a, b, c, d] := by
  rcases hx : s.data with _ | ⟨a, t1⟩
  · rw [hx] at h; simp at h
  rcases hy : t1 with _ | ⟨b, t2⟩
  · rw [hx, hy] at h; simp at h
  rcases hz : t2 with _ | ⟨c, t3⟩
  · rw [hx, hy, hz] at h; simp at h
  rcases hw : t3 with _ | ⟨d, t4⟩
  · rw [hx, hy, hz, hw] at h; simp at h
  rcases hv : t4 with _ | ⟨e, t5⟩
  · exact ⟨a, b, c, d, rfl⟩
  · rw [hx, hy, hz, hw, hv] at h; simp at h

theorem expand3_eq (s : String) (a b c d : Char) (rest : List Char)
    (h : s.data = a :: b :: c :: d :: rest) : expand3 s = ⟨['#', b, b, c, c, d, d]⟩ := by
  unfold expand3
  rw [h]

theorem namedColors_canonical :
    ∀ p ∈ namedColors, p.1 ≠ "transparent" → canonical6 p.2 = true := by
  decide

/-- A well-formed color value canonicalizes to six lowercase hex digits. -/
theorem colorToHex_canonical (v : String) (h : wellFormedColor v = true) :
    canonical6 (colorToHex v) = true := by
  unfold wellFormedColor at h
  unfold colorToHex
  rcases Bool.or_eq_true_iff.mp h with h' | h'
  · rcases Bool.or_eq_true_iff.mp h' with hA | hB
    · simp only [Bool.and_eq_true, Bool.or_eq_true, decide_eq_true_eq] at hA
      obtain ⟨⟨hpref, htail⟩, hlen⟩ := hA
      rw [if_pos hpref]
      obtain ⟨t, ht⟩ := data_of_hasPref_hash _ hpref
      rcases hlen with hlen | hlen
      · rw [if_pos hlen]
        obtain ⟨a, b, c, d, hdata⟩ := data_len4 _ hlen
        rw [expand3_eq _ a b c d [] hdata]
        have htl : (cleanColor v).data.tail = [b, c, d] := by rw [hdata]; rfl
        rw [htl] at htail
        simp only [List.all_cons, Bool.and_eq_true, List.all_nil, and_true] at htail
        show ((6 : Nat) = 6 && [b, b, c, c, d, d].all isLowerHexCh) = true
        simp [htail.1, htail.2.1, htail.2.2]
      · rw [if_neg (by omega), if_pos hlen]
        unfold canonical6
        rw [ht]
        have hlt : t.length = 6 := by rw [ht] at hlen; simpa using hlen
        have htt : (cleanColor v).data.tail = t := by rw [ht]; rfl
        rw [htt] at htail
        simp [hlt, htail]
    · simp only [Bool.and_eq_true, Bool.not_eq_true'] at hB
      obtain ⟨hnp, hmatch⟩ := hB
      rw [if_neg (by simp [hnp])]
      cases hscan : rgbScan (cleanColor v).data with
      | none => rw [hscan] at hmatch; simp at hmatch
      | some rgb =>
        obtain ⟨r, g, b⟩ := rgb
        rw [hscan] at hmatch
        simp only [Bool.and_eq_true, decide_eq_true_eq] at hmatch
        obtain ⟨⟨hr, hg⟩, hb⟩ := hmatch
        obtain ⟨hr2, hra⟩ := pad2_natToHex_le255 r hr
        obtain ⟨hg2, hga⟩ := pad2_natToHex_le255 g hg
        obtain ⟨hb2, hba⟩ := pad2_natToHex_le255 b hb
        unfold canonical6
        simp [List.all_append, hr2, hg2, hb2, hra, hga, hba]
  · simp only [Bool.and_eq_true, Bool.not_eq_true', decide_eq_true_eq] at h'
    obtain ⟨⟨⟨hnp, hscan⟩, hfind⟩, hnt⟩ := h'
    rw [if_neg (by simp [hnp]), hscan]
    obtain ⟨p, hp⟩ := Option.isSome_iff_exists.mp hfind
    rw [hp]
    have hkey : p.1 = cleanColor v := by simpa using List.find?_some hp
    exact namedColors_canonical p (List.mem_of_find?_eq_some hp) (hkey ▸ hnt)

/-- The per-entry invariant of the color frequency map. -/
def colorEntryInv (e : ColorEntry) : Prop :=
  1 ≤ e.frequency ∧ hasPref e.hex "#" = true ∧ noUpper e.hex = true ∧
  (wellFormedColor e.value = true → canonical6 e.hex = true)

theorem bumpEntry_hexes (m : List ColorEntry) (key usage : String) :
    (bumpEntry m key usage).map (·.hex) = m.map (·.hex) := by
  unfold bumpEntry
  rw [List.map_map]
  exact List.map_congr_left fun e _ => by dsimp only [Function.comp]; split <;> rfl

theorem bumpEntry_inv (m : List ColorEntry) (key usage : String)
    (h : ∀ e ∈ m, colorEntryInv e) : ∀ e ∈ bumpEntry m key usage, colorEntryInv e := by
  intro e he
  unfold bumpEntry at he
  rcases List.mem_map.mp he with ⟨e', he', rfl⟩
  obtain ⟨h1, h2, h3, h4⟩ := h e' he'
  split
  · exact ⟨by simp, h2, h3, h4⟩
  · exact ⟨h1, h2, h3, h4⟩

theorem addColor_inv (m : List ColorEntry) (value usage : String)
    (hinv : ∀ e ∈ m, colorEntryInv e) (hnd : (m.map (·.hex)).Nodup) :
    (∀ e ∈ addColor m value usage, colorEntryInv e) ∧
      ((addColor m value usage).map (·.hex)).Nodup := by
  unfold addColor
  split
  · exact ⟨hinv, hnd⟩
  · split
    · exact ⟨hinv, hnd⟩
    · next hne =>
      simp only [Bool.or_eq_true, decide_eq_true_eq, not_or] at hne
      split
      · exact ⟨bumpEntry_inv m _ usage hinv, by rw [bumpEntry_hexes]; exact hnd⟩
      · next hany =>
        have hshape := colorToHex_shape value
        rcases hshape with h0 | h0 | ⟨hp, hu⟩
        · exact absurd h0 hne.1
        · exact absurd h0 hne.2
        constructor
        · intro e he
          rcases List.mem_append.mp he with he | he
          · exact hinv e he
          · have : e = ⟨value, colorToHex value, hexToRgb (colorToHex value), usage, 1⟩ := by
              simpa using he
            subst this
            exact ⟨le_refl 1, hp, hu, fun hw => colorToHex_canonical value hw⟩
        · have hnotin : colorToHex value ∉ m.map (·.hex) := by
            intro hmem
            rcases List.mem_map.mp hmem with ⟨e, he, heq⟩
            exact hany (List.any_eq_true.mpr ⟨e, he, by simp [heq]⟩)
          simp [List.nodup_append, hnd, hnotin]

theorem colorFold_inv :
    ∀ (cands : List (String × String)) (m : List ColorEntry),
      (∀ e ∈ m, colorEntryInv e) → ((m.map (·.hex)).Nodup) →
      (∀ e ∈ cands.foldl (fun m p => addColor m p.1 p.2) m, colorEntryInv e) ∧
        ((cands.foldl (fun m p => addColor m p.1 p.2) m).map (·.hex)).Nodup := by
  intro cands
  induction cands with
  | nil => intro m h1 h2; exact ⟨h1, h2⟩
  | cons p t ih =>
    intro m h1 h2
    simp only [List.foldl_cons]
    obtain ⟨g1, g2⟩ := addColor_inv m p.1 p.2 h1 h2
    exact ih _ g1 g2

/-- C6 (amended): for every input document, the colors list has length at
most 50, no two entries share a hex value, every entry has frequency at
least 1 and a `#`-prefixed hex value containing no uppercase letter which
is a canonical 6-hex-digit lowercase string whenever the first-seen source
value for that color was a well-formed hex/rgb/named literal (malformed
values such as `#zzz` pass through `colorToHex` unvalidated), and the list
is sorted by frequency descending with ties broken by hex ascending. -/
theorem c6_colors (d : ColorDoc) :
    (extractColors d).length ≤ 50 ∧
    ((extractColors d).map (·.hex)).Nodup ∧
    (∀ e ∈ extractColors d, 1 ≤ e.frequency ∧ hasPref e.hex "#" = true ∧
      noUpper e.hex = true ∧ (wellFormedColor e.value = true → canonical6 e.hex = true)) ∧
    List.Sorted colorRel (extractColors d) := by
  obtain ⟨hinv, hnd⟩ :=
    colorFold_inv (docColorCandidates d) [] (by simp) (by simp)
  unfold extractColors
  refine ⟨?_, ?_, ?_, ?_⟩
  · exact List.length_take_le 50 _
  · have hperm : List.Perm
        ((List.insertionSort colorRel
          ((docColorCandidates d).foldl (fun m p => addColor m p.1 p.2) [])).map (·.hex))
        (((docColorCandidates d).foldl (fun m p => addColor m p.1 p.2) []).map (·.hex)) :=
      (List.perm_insertionSort colorRel _).map _
    have hsorted : ((List.insertionSort colorRel
        ((docColorCandidates d).foldl (fun m p => addColor m p.1 p.2) [])).map (·.hex)).Nodup :=
      hperm.symm.nodup hnd
    rw [List.map_take]
    exact hsorted.sublist (List.take_sublist _ _)
  · intro e he
    exact hinv e ((List.perm_insertionSort colorRel _).mem_iff.mp (List.mem_of_mem_take he))
  · exact List.Pairwise.sublist (List.take_sublist _ _)
      (List.sorted_insertionSort colorRel _)

/-- Witness for C6: the entry invariants applied at a concrete document
(one inline style `color:#abc`, whose hex also appears in the serialized
markup, giving the single entry `#aabbcc` with frequency 2). -/
theorem c6_colors_witness :
    1 ≤ (⟨"#abc", "#aabbcc", "rgb(170, 187, 204)", "Text, Detected", 2⟩ : ColorEntry).frequency ∧
    hasPref (⟨"#abc", "#aabbcc", "rgb(170, 187, 204)", "Text, Detected", 2⟩ : ColorEntry).hex
      "#" = true ∧
    noUpper (⟨"#abc", "#aabbcc", "rgb(170, 187, 204)", "Text, Detected", 2⟩ : ColorEntry).hex
      = true ∧
    (wellFormedColor
      (⟨"#abc", "#aabbcc", "rgb(170, 187, 204)", "Text, Detected", 2⟩ : ColorEntry).value = true →
      canonical6
        (⟨"#abc", "#aabbcc", "rgb(170, 187, 204)", "Text, Detected", 2⟩ : ColorEntry).hex
        = true) :=
  (c6_colors ⟨["color:#abc"], [], "<div style=\"color:#abc\"></div>"⟩).2.2.1
    ⟨"#abc", "#aabbcc", "rgb(170, 187, 204)", "Text, Detected", 2⟩ (by decide)

/-- Counterexample to C6 as stated: the inline style `color:#zzz` yields
an entry whose hex value `#zzzzzz` is not a canonical 6-hex-digit string
(`z` is not a hexadecimal digit), because `colorToHex` expands 3-character
values without validating the digits. -/
theorem c6_colors_cex :
    extractColors ⟨["color:#zzz"], [], "<div style=\"color:#zzz\"></div>"⟩ =
      [⟨"#zzz", "#zzzzzz", "", "Text", 1⟩] ∧
    canonical6 "#zzzzzz" = false := by decide

/-! ## Phone-number extraction (`extractWebsiteData`, phones pass)

The phone-candidate detector (libphonenumber-js) is an external
collaborator; it is injected as `find` (model of
`findPhoneNumbersInText`) and `parse` (model of
`parsePhoneNumberFromString`; no call site supplies a default country).
A detected number carries its `isValid()`/`isPossible()` flags and its
`formatInternational()`/`format('E.164')` results, with `none` modelling
a formatting call that throws (the source wraps those calls in
try/catch; loops whose bodies have no inner try abort on the first
throw, which `addValidStop` mirrors). -/

structure PhoneNum where
  valid : Bool
  possible : Bool
  fmtIntl : Option String
  fmtE164 : Option String

/-- The digit characters of a phone string (`phone.replace(/\D/g, '')`). -/
def digitsOf (s : String) : List Char := s.data.filter isDigitCh

/-- All characters equal. -/
def allEqCh : List Char → Bool
  | [] => true
  | c :: t => t.all (· = c)

/-- Length of the leading run of `c`. -/
def leadRun (c : Char) : List Char → Nat
  | [] => 0
  | d :: t => if d = c then leadRun c t + 1 else 0

/-- Is there a run of 7 equal consecutive characters
(the `/(\d)\1{6,}/` test)? -/
def hasRun7 : List Char → Bool
  | [] => false
  | c :: t => (6 ≤ leadRun c t) || hasRun7 t

/-- Value of a digit character. -/
def digitVal (c : Char) : Nat := c.toNat - 48

/-- Every adjacent pair increases by one (the ascending test of the
sequential loop). -/
def ascAdj : List Nat → Bool
  | [] => true
  | [_] => true
  | a :: b :: t => (b = a + 1) && ascAdj (b :: t)

/-- Every adjacent pair decreases by one. -/
def descAdj : List Nat → Bool
  | [] => true
  | [_] => true
  | a :: b :: t => (a = b + 1) && descAdj (b :: t)

/-- The `testNumbers` list of `isDummyNumber`. -/
def testNumbers : List String :=
  ["5550100", "5550199", "5551234", "5555555",
   "1234567", "12345678", "123456789", "1234567890",
   "0000000", "00000000", "000000000", "0000000000",
   "1111111", "11111111", "111111111", "1111111111",
   "9999999", "99999999", "999999999", "9999999999"]

/-- A 9- or 10-long run of the digit `c` (the `/^cccccccccc?$/` patterns). -/
def rep910 (d : List Char) (c : Char) : Bool :=
  d = List.replicate 9 c || d = List.replicate 10 c

/-- The `dummyPatterns` regex list of `isDummyNumber`, in source order. -/
def dummyPatterns (d : List Char) : Bool :=
  (d.length = 7 && hasPrefCh "555".data d) ||
  (d = "123456789".data || d = "1234567890".data) ||
  rep910 d '0' ||
  rep910 d '1' || rep910 d '2' || rep910 d '3' || rep910 d '4' || rep910 d '5' ||
  rep910 d '6' || rep910 d '7' || rep910 d '8' || rep910 d '9' ||
  (d = "012345678".data || d = "0123456789".data) ||
  (d = "987654321".data || d = "9876543210".data) ||
  (allEqCh d && 10 ≤ d.length) ||
  (d.length = 10 && hasPrefCh "555".data d)

/-- Model of `isDummyNumber`: the explicit patterns, the 7-repeat check
on 10+-digit numbers, the sequential check over the first
`min(length, 10)` digits, and the test-number list. -/
def isDummyNumber (phone : String) : Bool :=
  if phone = "" then true
  else
    dummyPatterns (digitsOf phone) ||
    (hasRun7 (digitsOf phone) && 10 ≤ (digitsOf phone).length) ||
    ((ascAdj (((digitsOf phone).take 10).map digitVal) ||
      descAdj (((digitsOf phone).take 10).map digitVal)) && 7 ≤ (digitsOf phone).length) ||
    testNumbers.any (fun t => t.data = digitsOf phone)

/-- Strip an exact case-insensitive leading literal (`^tel:` etc.). -/
def dropCaseInsPre (p : String) (s : String) : String :=
  if ciPrefCh p.data s.data then ⟨s.data.drop p.data.length⟩ else s

/-- Strip a `^kw\s*:?` prefix (the `call`/`phone` cleanup regexes). -/
def dropCallLike (kw : String) (s : String) : String :=
  if ciPrefCh kw.data s.data then
    match (s.data.drop kw.data.length).dropWhile isWsCh with
    | ':' :: r2 => ⟨r2⟩
    | r => ⟨r⟩
  else s

/-- The character class kept by the cleanup (`[^\d+\-().\s]` removed). -/
def keepPhoneCh (c : Char) : Bool :=
  isDigitCh c || c = '+' || c = '-' || c = '(' || c = ')' || c = '.' || isWsCh c

/-- The candidate cleanup of `addPhoneNumber`. -/
def cleanPhone (phone : String) : String :=
  jsTrim ⟨(dropCallLike "phone"
    (dropCallLike "call" (dropCaseInsPre "tel:" (jsTrim phone)))).data.filter keepPhoneCh⟩

/-- One dummy-checked formatted add (international format, falling back
to E.164 when formatting throws). -/
def addFmtChecked (set : List String) (n : PhoneNum) : List String :=
  if n.valid || n.possible then
    match n.fmtIntl with
    | some f => if f ≠ "" && !isDummyNumber f then setInsert set f else set
    | none =>
      match n.fmtE164 with
      | some e => if e ≠ "" && !isDummyNumber e then setInsert set e else set
      | none => set
  else set

/-- The dummy-checked add over a detector result list. -/
def foldFmtChecked (set : List String) (l : List PhoneNum) : List String :=
  l.foldl addFmtChecked set

/-- The unchecked add of the final detector fallback (no dummy test). -/
def addFmtUnchecked (set : List String) (n : PhoneNum) : List String :=
  if n.valid || n.possible then
    match n.fmtIntl with
    | some f => if f ≠ "" then setInsert set f else set
    | none =>
      match n.fmtE164 with
      | some e => if e ≠ "" then setInsert set e else set
      | none => set
  else set

/-- Valid-only adds whose loop has no inner try: a formatting throw
aborts the remaining numbers of this source. -/
def addValidStop (set : List String) : List PhoneNum → List String
  | [] => set
  | n :: t =>
    if n.valid then
      match n.fmtIntl with
      | some f => addValidStop (setInsert set f) t
      | none => set
    else addValidStop set t

/-- The last-resort raw add of `addPhoneNumber`. -/
def lastResort (set : List String) (c : String) : List String :=
  if 7 ≤ (digitsOf c).length && (digitsOf c).length ≤ 15 &&
      !isDummyNumber ⟨digitsOf c⟩ then
    if hasPref c "+" then
      if !isDummyNumber c then setInsert set c else set
    else if 10 ≤ (digitsOf c).length then
      if !isDummyNumber ("+" ++ ⟨digitsOf c⟩) then setInsert set ("+" ++ ⟨digitsOf c⟩) else set
    else set
  else set

/-- The tail of `addPhoneNumber` after the parse attempt: a valid or
possible parsed number is added (dummy-checked); otherwise the detector
is consulted once more (unchecked adds) before the last resort. -/
def contPhone (find : String → List PhoneNum) (set : List String)
    (p : Option PhoneNum) (c : String) : List String :=
  match p with
  | some n =>
    if n.valid || n.possible then addFmtChecked set n
    else
      match find c with
      | m :: ms => (m :: ms).foldl addFmtUnchecked set
      | [] => lastResort set c
  | none =>
    match find c with
    | m :: ms => (m :: ms).foldl addFmtUnchecked set
    | [] => lastResort set c

/-- Model of `addPhoneNumber` (no call site passes a default country, so
the country-assisted re-parse of the source is a no-op and is not
modelled; the second `findPhoneNumbersInText` call of the invalid-parse
branch is the same deterministic `find` application). -/
def addPhoneNumber (find : String → List PhoneNum) (parse : String → Option PhoneNum)
    (set : List String) (phone : String) : List String :=
  if phone = "" then set
  else if cleanPhone phone = "" || (cleanPhone phone).data.length < 7 then set
  else if isDummyNumber (cleanPhone phone) then set
  else
    match find (cleanPhone phone) with
    | n :: ns => foldFmtChecked set (n :: ns)
    | [] =>
      if (match parse (cleanPhone phone) with
          | none => true
          | some n => !n.valid) then
        match find (cleanPhone phone) with
        | m :: ms => foldFmtChecked set (m :: ms)
        | [] => contPhone find set (parse (cleanPhone phone)) (cleanPhone phone)
      else contPhone find set (parse (cleanPhone phone)) (cleanPhone phone)

/-- Model of `extractPhoneNumbersFromText`. -/
def extractPhonesFromText (find : String → List PhoneNum) (set : List String)
    (text : String) : List String :=
  if text = "" || text.data.length < 7 then set
  else foldFmtChecked set (find text)

/-- JSON values of a parsed JSON-LD block. -/
inductive Json where
  | str (s : String)
  | num (n : Int)
  | bool (b : Bool)
  | null
  | arr (items : List Json)
  | obj (fields : List (String × Json))

/-- JS truthiness of a JSON value. -/
def jTruthy : Json → Bool
  | .str s => s ≠ ""
  | .num n => n ≠ 0
  | .bool b => b
  | .null => false
  | .arr _ => true
  | .obj _ => true

/-- Object field lookup (`undefined` for a missing key). -/
def jGet (fields : List (String × Json)) (k : String) : Option Json :=
  (fields.find? (fun p => p.1 == k)).map (·.2)

/-- The first truthy value of a JS `||` chain. -/
def firstTruthy : List (Option Json) → Option Json
  | [] => none
  | o :: t =>
    match o with
    | some j => if jTruthy j then some j else firstTruthy t
    | none => firstTruthy t

/-- The `obj.contactPoint?.telephone` access. -/
def contactTel (fields : List (String × Json)) : Option Json :=
  match jGet fields "contactPoint" with
  | some (.obj fs) => jGet fs "telephone"
  | _ => none

mutual

/-- Model of the recursive `extractFromObject` over parsed JSON-LD:
digit-bearing strings go to the detector (valid-only adds, falling back
to `addPhoneNumber`); objects contribute their phone-keyed field (when a
string; non-strings throw inside `addPhoneNumber` and add nothing) and
are recursed over their values; arrays are recursed elementwise. -/
def extractJ (find : String → List PhoneNum) (parse : String → Option PhoneNum)
    (set : List String) : Json → List String
  | .str s =>
    if s.data.any isDigitCh then
      match find s with
      | n :: ns => addValidStop set (n :: ns)
      | [] => addPhoneNumber find parse set s
    else set
  | .obj fs =>
    extractJFields find parse
      (match firstTruthy
          [jGet fs "telephone", jGet fs "phone", jGet fs "phoneNumber", contactTel fs] with
       | some (.str s) => addPhoneNumber find parse set s
       | _ => set) fs
  | .arr items => extractJList find parse set items
  | _ => set

def extractJList (find : String → List PhoneNum) (parse : String → Option PhoneNum)
    (set : List String) : List Json → List String
  | [] => set
  | j :: t => extractJList find parse (extractJ find parse set j) t

def extractJFields (find : String → List PhoneNum) (parse : String → Option PhoneNum)
    (set : List String) : List (String × Json) → List String
  | [] => set
  | f :: t => extractJFields find parse (extractJ find parse set f.2) t

end

/-- Case-insensitive substring test. -/
def containsCI (pat : List Char) : List Char → Bool
  | [] => pat.isEmpty
  | c :: t => ciPrefCh pat (c :: t) || containsCI pat t

/-- The suffix after the last case-insensitive occurrence of `pat`
(model of `replace(/^.*pat/i, '')`; the whole list when absent). -/
def afterLastSubCI (pat : List Char) : List Char → List Char
  | [] => []
  | c :: t =>
    if containsCI pat t then afterLastSubCI pat t
    else if ciPrefCh pat (c :: t) then (c :: t).drop pat.length
    else c :: t

/-- The `tel:` href cleanup (`replace(/^tel:/i, '').split('?')[0].trim()`). -/
def telHrefPhone (h : String) : String :=
  jsTrim ⟨takeBeforeCh '?' (dropCaseInsPre "tel:" h).data⟩

/-- A phone document: the values each phone source reads, in document
order (`tel:` hrefs, the whole-page text, per-element texts, phone-ish
`content` attributes, `data-phone`-family attributes, parsed JSON-LD
roots, microdata telephone values, phone-flavored hrefs, texts of
phone-flavored class/id elements, phone meta contents). -/
structure PhoneDoc where
  telHrefs : List String
  pageText : String
  elementTexts : List String
  contentAttrs : List String
  dataPhoneAttrs : List String
  jsonLd : List Json
  microdataVals : List String
  phoneHrefs : List String
  classTexts : List String
  metaPhoneContents : List String

/-- The merged candidate set before the final dummy filter and sort,
accumulating the ten sources in source order. -/
def mergedPhoneSet (find : String → List PhoneNum) (parse : String → Option PhoneNum)
    (d : PhoneDoc) : List String :=
  let s1 := d.telHrefs.foldl
    (fun s h => if telHrefPhone h ≠ "" then addPhoneNumber find parse s (telHrefPhone h) else s)
    []
  let s2 := if d.pageText ≠ "" then extractPhonesFromText find s1 d.pageText else s1
  let s3 := d.elementTexts.foldl
    (fun s t => if t ≠ "" && 5 < t.data.length then addValidStop s (find t) else s) s2
  let s4 := d.contentAttrs.foldl
    (fun s c =>
      if c ≠ "" && c.data.any isDigitCh then
        match find c with
        | n :: ns => addValidStop s (n :: ns)
        | [] => addPhoneNumber find parse s c
      else s) s3
  let s5 := d.dataPhoneAttrs.foldl
    (fun s p => if p ≠ "" then addPhoneNumber find parse s p else s) s4
  let s6 := extractJList find parse s5 d.jsonLd
  let s7 := d.microdataVals.foldl
    (fun s v => if v ≠ "" then addPhoneNumber find parse s v else s) s6
  let s8 := d.phoneHrefs.foldl
    (fun s h =>
      if containsSub h "tel:" then
        if jsTrim ⟨takeBeforeCh '#' (takeBeforeCh '?' (afterLastSubCI "tel:".data h.data))⟩
            ≠ "" then
          addPhoneNumber find parse s
            (jsTrim ⟨takeBeforeCh '#' (takeBeforeCh '?' (afterLastSubCI "tel:".data h.data))⟩)
        else s
      else s) s7
  let s9 := d.classTexts.foldl
    (fun s t => if t ≠ "" then addValidStop s (find t) else s) s8
  d.metaPhoneContents.foldl
    (fun s c => if c ≠ "" then addPhoneNumber find parse s c else s) s9

/-- The phones pass: merge all sources, filter remaining dummies, sort. -/
def extractPhones (find : String → List PhoneNum) (parse : String → Option PhoneNum)
    (d : PhoneDoc) : List String :=
  List.insertionSort strLe
    ((mergedPhoneSet find parse d).filter (fun p => !isDummyNumber p))

/-! ### Properties of the phones pass -/

/-- The claim's repeated-run rule, amended to runs of length at least 9. -/
def claimRep9 (x : String) : Bool :=
  !(digitsOf x).isEmpty && allEqCh (digitsOf x) && decide (9 ≤ (digitsOf x).length)

/-- The claim's ascending/descending sequential-run rule. -/
def claimSeqRun (x : String) : Bool :=
  (ascAdj ((digitsOf x).map digitVal) || descAdj ((digitsOf x).map digitVal)) &&
    decide (7 ≤ (digitsOf x).length)

/-- The claim's listed-test-sequence rule. -/
def claimTestSeq (x : String) : Bool := testNumbers.any (fun t => t.data = digitsOf x)

/-- The claim's `555` followed by exactly 4 or exactly 7 digits rule. -/
def claim555 (x : String) : Bool :=
  hasPrefCh "555".data (digitsOf x) &&
    (decide ((digitsOf x).length = 7) || decide ((digitsOf x).length = 10))

theorem char_eq_of_toNat (a b : Char) (h : a.toNat = b.toNat) : a = b :=
  Char.ext (UInt32.ext h)

theorem char_digit_cases (c : Char) (h : isDigitCh c = true) :
    c = '0' ∨ c = '1' ∨ c = '2' ∨ c = '3' ∨ c = '4' ∨
    c = '5' ∨ c = '6' ∨ c = '7' ∨ c = '8' ∨ c = '9' := by
  unfold isDigitCh at h
  simp only [Bool.and_eq_true, decide_eq_true_eq] at h
  have hd : c.toNat = 48 ∨ c.toNat = 49 ∨ c.toNat = 50 ∨ c.toNat = 51 ∨ c.toNat = 52 ∨
      c.toNat = 53 ∨ c.toNat = 54 ∨ c.toNat = 55 ∨ c.toNat = 56 ∨ c.toNat = 57 := by omega
  rcases hd with h0 | h0 | h0 | h0 | h0 | h0 | h0 | h0 | h0 | h0
  · exact Or.inl (char_eq_of_toNat c '0' h0)
  · exact Or.inr (Or.inl (char_eq_of_toNat c '1' h0))
  · exact Or.inr (Or.inr (Or.inl (char_eq_of_toNat c '2' h0)))
  · exact Or.inr (Or.inr (Or.inr (Or.inl (char_eq_of_toNat c '3' h0))))
  · exact Or.inr (Or.inr (Or.inr (Or.inr (Or.inl (char_eq_of_toNat c '4' h0)))))
  · exact Or.inr (Or.inr (Or.inr (Or.inr (Or.inr (Or.inl (char_eq_of_toNat c '5' h0))))))
  · exact Or.inr (Or.inr (Or.inr (Or.inr (Or.inr (Or.inr
      (Or.inl (char_eq_of_toNat c '6' h0)))))))
  · exact Or.inr (Or.inr (Or.inr (Or.inr (Or.inr (Or.inr (Or.inr
      (Or.inl (char_eq_of_toNat c '7' h0))))))))
  · exact Or.inr (Or.inr (Or.inr (Or.inr (Or.inr (Or.inr (Or.inr (Or.inr
      (Or.inl (char_eq_of_toNat c '8' h0)))))))))
  · exact Or.inr (Or.inr (Or.inr (Or.inr (Or.inr (Or.inr (Or.inr (Or.inr
      (Or.inr (char_eq_of_toNat c '9' h0)))))))))

theorem allEqCh_replicate (l : List Char) (h : allEqCh l = true) (c : Char)
    (hc : l.head? = some c) : l = List.replicate l.length c := by
  cases l with
  | nil => simp at hc
  | cons a t =>
    simp only [List.head?, Option.some.injEq] at hc
    subst hc
    unfold allEqCh at h
    simp only [List.length_cons, List.replicate, List.cons.injEq, true_and]
    exact List.eq_replicate_of_mem
      (fun b hb => by simpa using List.all_eq_true.mp h b hb)

theorem dummyPatterns_of_rep9 (d : List Char) (hd : ∀ c ∈ d, isDigitCh c = true)
    (hall : allEqCh d = true) (hlen : 9 ≤ d.length) : dummyPatterns d = true := by
  cases hh : d.head? with
  | none =>
    cases d with
    | nil => simp at hlen
    | cons a t => simp at hh
  | some c =>
    have hrep := allEqCh_replicate d hall c hh
    have hcd : c ∈ d := List.mem_of_mem_head? (by rw [hh]; rfl)
    have hdig := hd c hcd
    by_cases h9 : d.length = 9
    · have hde : d = List.replicate 9 c := by rw [hrep, h9]
      rcases char_digit_cases c hdig with rfl | rfl | rfl | rfl | rfl | rfl | rfl | rfl | rfl | rfl
        <;> simp [dummyPatterns, rep910, hde]
    · by_cases h10 : d.length = 10
      · have hde : d = List.replicate 10 c := by rw [hrep, h10]
        rcases char_digit_cases c hdig with rfl | rfl | rfl | rfl | rfl | rfl | rfl | rfl
          | rfl | rfl <;> simp [dummyPatterns, rep910, hde]
      · have h11 : 10 ≤ d.length := by omega
        simp [dummyPatterns, hall, h11]

theorem digitsOf_digits (x : String) : ∀ c ∈ digitsOf x, isDigitCh c = true := by
  intro c hc
  exact List.of_mem_filter hc

theorem dummy_of_claimRep9 (x : String) (h : claimRep9 x = true) :
    isDummyNumber x = true := by
  unfold claimRep9 at h
  simp only [Bool.and_eq_true, Bool.not_eq_true', decide_eq_true_eq] at h
  unfold isDummyNumber
  split
  · rfl
  · have hp := dummyPatterns_of_rep9 (digitsOf x) (digitsOf_digits x) h.1.2 h.2
    simp [hp]

theorem ascAdj_take (l : List Nat) (n : Nat) (h : ascAdj l = true) :
    ascAdj (l.take n) = true := by
  induction l generalizing n with
  | nil => simp [List.take]; rfl
  | cons a t ih =>
    cases n with
    | zero => rfl
    | succ n =>
      cases t with
      | nil =>
        show ascAdj (a :: List.take n []) = true
        cases n <;> rfl
      | cons b t2 =>
        unfold ascAdj at h
        simp only [Bool.and_eq_true] at h
        cases n with
        | zero => rfl
        | succ n =>
          show ascAdj (a :: b :: List.take n t2) = true
          unfold ascAdj
          simp only [Bool.and_eq_true]
          exact ⟨h.1, by simpa using ih (n + 1) h.2⟩

theorem descAdj_take (l : List Nat) (n : Nat) (h : descAdj l = true) :
    descAdj (l.take n) = true := by
  induction l generalizing n with
  | nil => simp [List.take]; rfl
  | cons a t ih =>
    cases n with
    | zero => rfl
    | succ n =>
      cases t with
      | nil =>
        show descAdj (a :: List.take n []) = true
        cases n <;> rfl
      | cons b t2 =>
        unfold descAdj at h
        simp only [Bool.and_eq_true] at h
        cases n with
        | zero => rfl
        | succ n =>
          show descAdj (a :: b :: List.take n t2) = true
          unfold descAdj
          simp only [Bool.and_eq_true]
          exact ⟨h.1, by simpa using ih (n + 1) h.2⟩

theorem dummy_of_claimSeqRun (x : String) (h : claimSeqRun x = true) :
    isDummyNumber x = true := by
  unfold claimSeqRun at h
  simp only [Bool.and_eq_true, Bool.or_eq_true, decide_eq_true_eq] at h
  unfold isDummyNumber
  split
  · rfl
  · have hseq : ascAdj ((List.map digitVal (digitsOf x)).take 10) = true ∨
        descAdj ((List.map digitVal (digitsOf x)).take 10) = true := by
      rcases h.1 with ha | ha
      · exact Or.inl (ascAdj_take _ 10 ha)
      · exact Or.inr (descAdj_take _ 10 ha)
    rcases hseq with hs | hs <;> simp [hs, h.2]

theorem dummy_of_claimTestSeq (x : String) (h : claimTestSeq x = true) :
    isDummyNumber x = true := by
  unfold claimTestSeq at h
  unfold isDummyNumber
  split
  · rfl
  · simp [h]

theorem dummy_of_claim555 (x : String) (h : claim555 x = true) :
    isDummyNumber x = true := by
  unfold claim555 at h
  simp only [Bool.and_eq_true, Bool.or_eq_true, decide_eq_true_eq] at h
  unfold isDummyNumber
  split
  · rfl
  · rcases h.2 with h7 | h10
    · have : dummyPatterns (digitsOf x) = true := by
        unfold dummyPatterns
        simp [h7, h.1]
      simp [this]
    · have : dummyPatterns (digitsOf x) = true := by
        unfold dummyPatterns
        simp [h10, h.1]
      simp [this]

theorem extractPhones_not_dummy (find : String → List PhoneNum)
    (parse : String → Option PhoneNum) (d : PhoneDoc) (x : String)
    (h : x ∈ extractPhones find parse d) : isDummyNumber x = false := by
  unfold extractPhones at h
  have h2 := (List.perm_insertionSort strLe _).mem_iff.mp h
  simpa using (List.mem_filter.mp h2).2

/-- A detector/parser pair that finds nothing (the behaviour of
libphonenumber-js on text without an international prefix). -/
def findNone : String → List PhoneNum := fun _ => []

def parseNone : String → Option PhoneNum := fun _ => none

/-- A hypothetical detector that reports `555-0100` as possible. -/
def find555 : String → List PhoneNum :=
  fun _ => [⟨true, true, some "555-0100", some "+15550100"⟩]

/-- The document whose only phone-like text is `Call 555-0100 now`. -/
def docCall555 : PhoneDoc := ⟨[], "Call 555-0100 now", [], [], [], [], [], [], [], []⟩

/-- A document with a single `data-phone="+2222222"` attribute. -/
def docDataPhone : PhoneDoc := ⟨[], "", [], [], ["+2222222"], [], [], [], [], []⟩

/-- A document with a single `data-phone="+14155550132"` attribute. -/
def docWitPhone : PhoneDoc := ⟨[], "", [], [], ["+14155550132"], [], [], [], [], []⟩

/-- C4 (amended): every element of the returned phoneNumbers list fails
every dummy-number rule that the final filter enforces: its digit string
is not a single repeated digit run of length at least 9 (shorter all-same
runs are rejected only via the explicit test list, e.g. 0000000, 1111111,
5555555, 9999999), not an ascending or descending sequential run of
length at least 7, not one of the listed test sequences, and not `555`
followed by exactly 4 or exactly 7 digits; and extracting a document
whose only phone-like text is `Call 555-0100 now` yields an empty
phoneNumbers list, whether the injected detector reports nothing or
reports the dummy candidate. -/
theorem c4_phones :
    (∀ find parse d x, x ∈ extractPhones find parse d →
      claimRep9 x = false ∧ claimSeqRun x = false ∧
      claimTestSeq x = false ∧ claim555 x = false) ∧
    extractPhones findNone parseNone docCall555 = [] ∧
    extractPhones find555 parseNone docCall555 = [] := by
  refine ⟨?_, by decide, by decide⟩
  intro find parse d x h
  have hnd := extractPhones_not_dummy find parse d x h
  refine ⟨?_, ?_, ?_, ?_⟩
  · by_contra hc
    rw [Bool.not_eq_false] at hc
    rw [dummy_of_claimRep9 x hc] at hnd
    exact absurd hnd (by simp)
  · by_contra hc
    rw [Bool.not_eq_false] at hc
    rw [dummy_of_claimSeqRun x hc] at hnd
    exact absurd hnd (by simp)
  · by_contra hc
    rw [Bool.not_eq_false] at hc
    rw [dummy_of_claimTestSeq x hc] at hnd
    exact absurd hnd (by simp)
  · by_contra hc
    rw [Bool.not_eq_false] at hc
    rw [dummy_of_claim555 x hc] at hnd
    exact absurd hnd (by simp)

/-- Witness for C4: the rule guarantees applied at the concrete document
with `data-phone="+14155550132"`, whose extracted element is
`+14155550132`. -/
theorem c4_phones_witness :
    claimRep9 "+14155550132" = false ∧ claimSeqRun "+14155550132" = false ∧
    claimTestSeq "+14155550132" = false ∧ claim555 "+14155550132" = false :=
  c4_phones.1 findNone parseNone docWitPhone "+14155550132" (by decide)

/-- Counterexample to C4 as stated: with a detector that finds nothing in
`+2222222` (no assigned country code), the last-resort branch of
`addPhoneNumber` admits it, and the returned list contains an element
whose digit string is a single repeated digit run (of length 7, below
every repeated-run check of `isDummyNumber`). -/
theorem c4_phones_cex :
    extractPhones findNone parseNone docDataPhone = ["+2222222"] ∧
    digitsOf "+2222222" = List.replicate 7 '2' := by decide

end WebExtract
